import Mathlib

/-!
Verification of the DispatchKernel response pipeline (tools/dk.py): the
JSON response extractor, the deterministic stub analysis backends, the
configuration resolver, the schema-validation error choice, the
transcription normalizer and the CLI error envelope.

Strings are modelled as `List Char`; Python's `json` module is modelled by
an executable serializer (`dumpsV`) and parser (`loads`) over an inductive
JSON value type with integer numbers (floating point is outside the scope
of every claim).
-/

namespace DK

/-- JSON values as handled by dk.py. Numbers are modelled as integers;
no claim exercises floating point. -/
inductive Json where
  | null
  | bool (b : Bool)
  | num (n : Int)
  | str (s : List Char)
  | arr (elems : List Json)
  | obj (fields : List (List Char × Json))
deriving Repr, Inhabited

/-- Lower-case hex digit for a value below 16. -/
def hexDigit (n : Nat) : Char :=
  if n < 10 then Char.ofNat (48 + n) else Char.ofNat (87 + n)

/-- Serialize one character of a JSON string body: quote and backslash get
a backslash escape, control characters become a \u00XX escape, everything
else is emitted raw. -/
def escChar (c : Char) : List Char :=
  if c = '"' then ['\\', '"']
  else if c = '\\' then ['\\', '\\']
  else if c.toNat < 32 then
    ['\\', 'u', '0', '0', hexDigit (c.toNat / 16), hexDigit (c.toNat % 16)]
  else [c]

/-- Serialized body of a JSON string literal. -/
def escString (s : List Char) : List Char := s.flatMap escChar

/-- Decimal digits, most significant first, with a structural fuel
(adequate whenever the number is below the fuel). -/
def natDigitsAux : Nat → Nat → List Char
  | 0, _ => []
  | fuel + 1, n =>
    if n < 10 then [Char.ofNat (48 + n)]
    else natDigitsAux fuel (n / 10) ++ [Char.ofNat (48 + n % 10)]

/-- Decimal digits of a natural number, most significant first. -/
def natDigits (n : Nat) : List Char := natDigitsAux (n + 1) n

/-- Decimal rendering of an integer. -/
def intChars (i : Int) : List Char :=
  if i < 0 then '-' :: natDigits i.natAbs else natDigits i.toNat

mutual
/-- Compact JSON serialization of a value: the model of the serialization
referenced by the spec's round-trip property. -/
def dumpsV : Json → List Char
  | .null => "null".toList
  | .bool true => "true".toList
  | .bool false => "false".toList
  | .num n => intChars n
  | .str s => '"' :: escString s ++ ['"']
  | .arr xs => '[' :: dumpsElems xs ++ [']']
  | .obj fs => '{' :: dumpsFields fs ++ ['}']

/-- Comma-separated serialization of array elements. -/
def dumpsElems : List Json → List Char
  | [] => []
  | [x] => dumpsV x
  | x :: y :: xs => dumpsV x ++ ',' :: dumpsElems (y :: xs)

/-- Comma-separated serialization of object members. -/
def dumpsFields : List (List Char × Json) → List Char
  | [] => []
  | [(k, v)] => '"' :: escString k ++ '"' :: ':' :: dumpsV v
  | (k, v) :: f :: fs =>
    ('"' :: escString k ++ '"' :: ':' :: dumpsV v) ++ ',' :: dumpsFields (f :: fs)
end

/-- JSON whitespace accepted between tokens by Python's json.loads. -/
def isJsonWs (c : Char) : Bool := c = ' ' || c = '\t' || c = '\n' || c = '\r'

/-- Skip JSON whitespace. -/
def skipWs (s : List Char) : List Char := s.dropWhile isJsonWs

/-- Value of a decimal digit character. -/
def digitVal (c : Char) : Nat := c.toNat - 48

/-- Value of a digit run, most significant first. -/
def digitsToNat (ds : List Char) : Nat := ds.foldl (fun a c => 10 * a + digitVal c) 0

/-- Value of one hex digit, if it is one. -/
def hexVal1 (c : Char) : Option Nat :=
  if 48 ≤ c.toNat ∧ c.toNat ≤ 57 then some (c.toNat - 48)
  else if 97 ≤ c.toNat ∧ c.toNat ≤ 102 then some (c.toNat - 87)
  else if 65 ≤ c.toNat ∧ c.toNat ≤ 70 then some (c.toNat - 55)
  else none

/-- Value of a four-hex-digit escape payload. -/
def hexVal4 (c1 c2 c3 c4 : Char) : Option Nat := do
  let a ← hexVal1 c1
  let b ← hexVal1 c2
  let c ← hexVal1 c3
  let d ← hexVal1 c4
  pure (((a * 16 + b) * 16 + c) * 16 + d)

/-- Decode a single-character escape, as json.loads does. -/
def escDecode (c : Char) : Option Char :=
  if c = '"' then some '"'
  else if c = '\\' then some '\\'
  else if c = '/' then some '/'
  else if c = 'b' then some (Char.ofNat 8)
  else if c = 'f' then some (Char.ofNat 12)
  else if c = 'n' then some '\n'
  else if c = 'r' then some '\r'
  else if c = 't' then some '\t'
  else none

mutual
/-- Parse the body of a JSON string literal after the opening quote, through
the closing quote: the strict mode of json.loads, which rejects raw control
characters. Surrogate-pair decoding of astral \u escapes is outside the
model; dk.py never serializes such escapes. -/
def parseStringBody : List Char → Option (List Char × List Char)
  | [] => none
  | c :: rest =>
    if c = '"' then some ([], rest)
    else if c = '\\' then parseStringEsc rest
    else if c.toNat < 32 then none
    else (parseStringBody rest).map fun p => (c :: p.1, p.2)

/-- The continuation after a backslash inside a string literal. -/
def parseStringEsc : List Char → Option (List Char × List Char)
  | 'u' :: h1 :: h2 :: h3 :: h4 :: rest' =>
    (hexVal4 h1 h2 h3 h4).bind fun n =>
      (parseStringBody rest').map fun p => (Char.ofNat n :: p.1, p.2)
  | c2 :: rest' =>
    (escDecode c2).bind fun d =>
      (parseStringBody rest').map fun p => (d :: p.1, p.2)
  | [] => none
end

/-- Parse a JSON natural-number token: a maximal digit run without a leading
zero, or the single token 0. A following fraction or exponent marker means a
float, which is outside this model. -/
def parseNumToken : List Char → Option (Nat × List Char)
  | [] => none
  | c :: rest =>
    if c = '0' then
      match rest with
      | c' :: _ =>
        if c'.isDigit || c' = '.' || c' = 'e' || c' = 'E' then none else some (0, rest)
      | [] => some (0, [])
    else if c.isDigit then
      let ds := rest.takeWhile Char.isDigit
      let r := rest.dropWhile Char.isDigit
      match r with
      | c' :: _ =>
        if c' = '.' || c' = 'e' || c' = 'E' then none else some (digitsToNat (c :: ds), r)
      | [] => some (digitsToNat (c :: ds), [])
    else none

mutual
/-- Fuel-indexed recursive-descent JSON value parser modelling json.loads. -/
def parseVal : Nat → List Char → Option (Json × List Char)
  | 0, _ => none
  | fuel + 1, s =>
    match s with
    | [] => none
    | c :: rest =>
      if c = '{' then parseFields fuel (skipWs rest)
      else if c = '[' then parseElems fuel (skipWs rest)
      else if c = '"' then (parseStringBody rest).map fun p => (Json.str p.1, p.2)
      else if c = 'n' then
        match rest with
        | 'u' :: 'l' :: 'l' :: r => some (.null, r)
        | _ => none
      else if c = 't' then
        match rest with
        | 'r' :: 'u' :: 'e' :: r => some (.bool true, r)
        | _ => none
      else if c = 'f' then
        match rest with
        | 'a' :: 'l' :: 's' :: 'e' :: r => some (.bool false, r)
        | _ => none
      else if c = '-' then (parseNumToken rest).map fun p => (Json.num (-(p.1 : Int)), p.2)
      else if c.isDigit then
        (parseNumToken (c :: rest)).map fun p => (Json.num (p.1 : Int), p.2)
      else none

/-- Array contents after the opening bracket (whitespace already skipped):
either an immediate close or a nonempty element list. -/
def parseElems : Nat → List Char → Option (Json × List Char)
  | 0, _ => none
  | _ + 1, [] => none
  | fuel + 1, c :: rest =>
    if c = ']' then some (.arr [], rest)
    else
      match parseElems1 fuel (c :: rest) with
      | some (vs, r) => some (.arr vs, r)
      | none => none

/-- One or more comma-separated array elements, through the closing
bracket. -/
def parseElems1 : Nat → List Char → Option (List Json × List Char)
  | 0, _ => none
  | fuel + 1, s => do
    let (v, r) ← parseVal fuel s
    match skipWs r with
    | ',' :: r' => do
      let (vs, r'') ← parseElems1 fuel (skipWs r')
      pure (v :: vs, r'')
    | ']' :: r' => pure ([v], r')
    | _ => none

/-- Object contents after the opening brace (whitespace already skipped):
either an immediate close or a nonempty member list. -/
def parseFields : Nat → List Char → Option (Json × List Char)
  | 0, _ => none
  | _ + 1, [] => none
  | fuel + 1, c :: rest =>
    if c = '}' then some (.obj [], rest)
    else
      match parseFields1 fuel (c :: rest) with
      | some (fs, r) => some (.obj fs, r)
      | none => none

/-- One or more comma-separated object members, through the closing
brace. Keys must be string literals, as in json.loads. -/
def parseFields1 : Nat → List Char → Option (List (List Char × Json) × List Char)
  | 0, _ => none
  | fuel + 1, s =>
    match s with
    | '"' :: r => do
      let (k, r1) ← parseStringBody r
      match skipWs r1 with
      | ':' :: r3 => do
        let (v, r4) ← parseVal fuel (skipWs r3)
        match skipWs r4 with
        | ',' :: r6 => do
          let (fs, r7) ← parseFields1 fuel (skipWs r6)
          pure ((k, v) :: fs, r7)
        | '}' :: r6 => pure ([(k, v)], r6)
        | _ => none
      | _ => none
    | _ => none
end

/-- Python json.loads on the fragment of JSON the pipeline exercises: parse
one value surrounded by optional whitespace; anything left over is the
"Extra data" error. The fuel bound covers any parse, since at least one
input character is consumed per three recursive calls. -/
def loads (s : List Char) : Option Json :=
  match parseVal (3 * s.length + 1) (skipWs s) with
  | some (v, rest) => if skipWs rest = [] then some v else none
  | none => none

/-- The backtick character. -/
def btick : Char := Char.ofNat 96

/-- ASCII letter, the [a-zA-Z] class of the fence regex. -/
def isAsciiLetterCh (c : Char) : Bool :=
  (65 ≤ c.toNat && c.toNat ≤ 90) || (97 ≤ c.toNat && c.toNat ≤ 122)

/-- Python str.strip whitespace (ASCII portion). -/
def isPyWs (c : Char) : Bool :=
  c = ' ' || c = '\t' || c = '\n' || c = '\r' || c = Char.ofNat 11 || c = Char.ofNat 12

/-- Left-to-right non-overlapping substitution of the regex
three-backticks-then-letters by nothing, as re.sub does in
strip_code_fences. -/
def reSubFenceAux : Nat → List Char → List Char
  | 0, s => s
  | fuel + 1, c1 :: c2 :: c3 :: rest =>
    if c1 = btick && c2 = btick && c3 = btick then
      reSubFenceAux fuel (rest.dropWhile isAsciiLetterCh)
    else c1 :: reSubFenceAux fuel (c2 :: c3 :: rest)
  | _ + 1, s => s

/-- The fence substitution; the structural fuel is the text length, which
every step decreases by at least one. -/
def reSubFence (s : List Char) : List Char := reSubFenceAux s.length s

/-- Left-to-right non-overlapping removal of literal triple backticks, as
str.replace does in strip_code_fences. -/
def removeTripleAux : Nat → List Char → List Char
  | 0, s => s
  | fuel + 1, c1 :: c2 :: c3 :: rest =>
    if c1 = btick && c2 = btick && c3 = btick then removeTripleAux fuel rest
    else c1 :: removeTripleAux fuel (c2 :: c3 :: rest)
  | _ + 1, s => s

/-- The triple-backtick replacement; the structural fuel is the text
length. -/
def removeTriple (s : List Char) : List Char := removeTripleAux s.length s

/-- Python str.strip() on both ends. -/
def pyStrip (s : List Char) : List Char :=
  ((s.dropWhile isPyWs).reverse.dropWhile isPyWs).reverse

/-- tools/dk.py strip_code_fences: drop fence markers, then any leftover
triple backticks, then surrounding whitespace. -/
def strip_code_fences (text : List Char) : List Char :=
  pyStrip (removeTriple (reSubFence text))

/-- Brace depth contribution of one character. -/
def braceD (c : Char) : Int := if c = '{' then 1 else if c = '}' then -1 else 0

/-- The brace-depth scan of extract_first_json: append each character and
stop as soon as the running depth returns to zero. -/
def braceScan (depth : Int) : List Char → List Char
  | [] => []
  | c :: rest =>
    let d := depth + braceD c
    c :: (if d = 0 then [] else braceScan d rest)

/-- Total brace-depth change over a text. -/
def braceDelta (s : List Char) : Int := (s.map braceD).sum

/-- Starting from the given depth, the running depth stays nonnegative after
every character. -/
def nnFrom (d : Int) : List Char → Bool
  | [] => true
  | c :: r => decide (0 ≤ d + braceD c) && nnFrom (d + braceD c) r

/-- Starting from the given depth, the running depth stays at least one
after every character. -/
def posAll (d : Int) : List Char → Bool
  | [] => true
  | c :: r => decide (1 ≤ d + braceD c) && posAll (d + braceD c) r

/-- Starting from the given depth, the running depth never returns to zero:
the condition under which the extraction scan consumes its whole input. -/
def neverZero (d : Int) : List Char → Bool
  | [] => true
  | c :: r => decide (d + braceD c ≠ 0) && neverZero (d + braceD c) r

/-- Dyck-balanced braces: the running depth never dips below zero and ends
at zero. The reading of "no unbalanced braces" for a string value. -/
def dyck (s : List Char) : Bool := nnFrom 0 s && decide (braceDelta s = 0)

mutual
/-- Every string literal in the value (keys included) has Dyck-balanced
braces. -/
def stringsOkV : Json → Bool
  | .str s => dyck s
  | .arr xs => stringsOkE xs
  | .obj fs => stringsOkF fs
  | _ => true

/-- stringsOkV over array elements. -/
def stringsOkE : List Json → Bool
  | [] => true
  | x :: xs => stringsOkV x && stringsOkE xs

/-- stringsOkV over object members. -/
def stringsOkF : List (List Char × Json) → Bool
  | [] => true
  | (k, v) :: fs => dyck k && stringsOkV v && stringsOkF fs
end

/-- The text contains three consecutive backticks somewhere. -/
def hasTriple : List Char → Bool
  | c1 :: c2 :: c3 :: rest =>
    (c1 = btick && c2 = btick && c3 = btick) || hasTriple (c2 :: c3 :: rest)
  | _ => false

mutual
/-- Parser fuel sufficient for one value. -/
def pSizeV : Json → Nat
  | .null => 1
  | .bool _ => 1
  | .num _ => 1
  | .str _ => 1
  | .arr xs => 2 + pSizeL xs
  | .obj fs => 2 + pSizeF fs

/-- Parser fuel sufficient for an element list. -/
def pSizeL : List Json → Nat
  | [] => 0
  | x :: xs => 1 + pSizeV x + pSizeL xs

/-- Parser fuel sufficient for a member list. -/
def pSizeF : List (List Char × Json) → Nat
  | [] => 0
  | (_, v) :: fs => 1 + pSizeV v + pSizeF fs
end

/-- The text does not continue a numeric token: empty or headed by a
character that is not a digit, dot or exponent marker. -/
def numSafeB : List Char → Bool
  | [] => true
  | c :: _ => !(c.isDigit || c = '.' || c = 'e' || c = 'E')

/-- Context condition for the round trip: a serialized number must not be
followed by a character that would extend the numeric token. -/
def restSafe : Json → List Char → Prop
  | .num _, rest => numSafeB rest = true
  | _, _ => True

/-- Message of the no-object extraction error. -/
def noJsonMsg : String := "No JSON object found in model response"

/-- Message prefix of the parse-failure extraction error (the Python message
appends the decoder's exception text). -/
def parseFailMsg : String := "Unable to parse JSON object"

/-- tools/dk.py extract_first_json: strip code fences, locate the first
opening brace, scan to the first point brace depth returns to zero, and
parse the collected candidate. -/
def extract_first_json (text : List Char) : Except String Json :=
  let clean := strip_code_fences text
  match clean.dropWhile (fun c => c ≠ '{') with
  | [] => .error noJsonMsg
  | tl =>
    match loads (braceScan 0 tl) with
    | some v => .ok v
    | none => .error parseFailMsg

/-- Lower-casing of a text, the model of str.lower (ASCII range; the claims
only exercise ASCII needles). -/
def lowerStr (s : List Char) : List Char := s.map Char.toLower

/-- Python substring containment, the `in` operator on str. -/
def containsSub (needle : List Char) : List Char → Bool
  | [] => needle.isEmpty
  | c :: rest => needle.isPrefixOf (c :: rest) || containsSub needle rest

/-- Strip all trailing slashes, the model of str.rstrip applied to a URL. -/
def rstripSlash (s : List Char) : List Char :=
  (s.reverse.dropWhile (· = '/')).reverse

/-- Digit run with optional single interior underscores, the tail of a
Python int literal after its first digit. -/
def digitsTailU : List Char → Bool
  | [] => true
  | '_' :: c :: rest => c.isDigit && digitsTailU rest
  | '_' :: [] => false
  | c :: rest => c.isDigit && digitsTailU rest

/-- Valid unsigned body of a Python int literal. -/
def digitsUndOk : List Char → Bool
  | [] => false
  | c :: rest => c.isDigit && digitsTailU rest

/-- Python int() applied to a string: surrounding whitespace, an optional
sign, then digits with optional single interior underscores (ASCII digits;
no claim exercises Unicode digit characters). -/
def pyInt (s : List Char) : Option Int :=
  let t := pyStrip s
  match t with
  | '+' :: r =>
    if digitsUndOk r then some ((digitsToNat (r.filter (· ≠ '_')) : Int)) else none
  | '-' :: r =>
    if digitsUndOk r then some (-(digitsToNat (r.filter (· ≠ '_')) : Int)) else none
  | r =>
    if digitsUndOk r then some ((digitsToNat (r.filter (· ≠ '_')) : Int)) else none

/-- The Environment dataclass of dk.py with its field defaults. -/
structure Environment where
  transcribe_backend : List Char
  analyze_backend : List Char
  openai_api_key : Option (List Char)
  openai_stt_model : List Char
  localai_stt_model : List Char
  localai_base_url : List Char
  localai_model : List Char
  localai_timeout : Int
  default_timezone : List Char
deriving Repr

/-- Default-constructed Environment(). -/
def defaultEnvironment : Environment :=
  ⟨"openai".toList, "localai".toList, none, "gpt-4o-transcribe".toList,
   "whisper-1".toList, "http://localhost:8080".toList, "gpt-4o-mini".toList,
   45, "America/New_York".toList⟩

/-- Failures: DKError carries the structured CLI message; any other raised
exception type is not caught by the command handlers and escapes as a
Python traceback. -/
inductive Failure where
  | dk (msg : String)
  | pyExc (desc : String)
deriving Repr, DecidableEq

/-- An environment variable read via the truthiness test of
`if raw_env.get(k)`: present and non-empty. -/
def envSet (raw : List (String × String)) (k : String) : Option String :=
  match raw.lookup k with
  | some v => if v = "" then none else some v
  | none => none

/-- The TRANSCRIBE_BACKEND line of load_environment. -/
def updTB (raw : List (String × String)) (e : Environment) : Environment :=
  match envSet raw "TRANSCRIBE_BACKEND" with
  | some v => { e with transcribe_backend := lowerStr (pyStrip v.toList) }
  | none => e

/-- The ANALYZE_BACKEND line of load_environment. -/
def updAB (raw : List (String × String)) (e : Environment) : Environment :=
  match envSet raw "ANALYZE_BACKEND" with
  | some v => { e with analyze_backend := lowerStr (pyStrip v.toList) }
  | none => e

/-- The OPENAI_API_KEY line of load_environment. -/
def updOAK (raw : List (String × String)) (e : Environment) : Environment :=
  match envSet raw "OPENAI_API_KEY" with
  | some v => { e with openai_api_key := some v.toList }
  | none => e

/-- The OPENAI_STT_MODEL line of load_environment. -/
def updOSM (raw : List (String × String)) (e : Environment) : Environment :=
  match envSet raw "OPENAI_STT_MODEL" with
  | some v => { e with openai_stt_model := v.toList }
  | none => e

/-- The LOCALAI_STT_MODEL line of load_environment. -/
def updLSM (raw : List (String × String)) (e : Environment) : Environment :=
  match envSet raw "LOCALAI_STT_MODEL" with
  | some v => { e with localai_stt_model := v.toList }
  | none => e

/-- The LOCALAI_BASE_URL line of load_environment. -/
def updLBU (raw : List (String × String)) (e : Environment) : Environment :=
  match envSet raw "LOCALAI_BASE_URL" with
  | some v => { e with localai_base_url := rstripSlash v.toList }
  | none => e

/-- The LOCALAI_MODEL line of load_environment. -/
def updLM (raw : List (String × String)) (e : Environment) : Environment :=
  match envSet raw "LOCALAI_MODEL" with
  | some v => { e with localai_model := v.toList }
  | none => e

/-- The DEFAULT_TIMEZONE line of load_environment. -/
def updTZ (raw : List (String × String)) (e : Environment) : Environment :=
  match envSet raw "DEFAULT_TIMEZONE" with
  | some v => { e with default_timezone := v.toList }
  | none => e

/-- tools/dk.py load_environment: apply each present, non-empty allow-listed
variable in source order; a non-integer timeout raises DKError. -/
def load_environment (raw : List (String × String)) : Except Failure Environment :=
  let e := updLM raw (updLBU raw (updLSM raw (updOSM raw
    (updOAK raw (updAB raw (updTB raw defaultEnvironment))))))
  match envSet raw "LOCALAI_TIMEOUT_S" with
  | some v =>
    match pyInt v.toList with
    | some n => .ok (updTZ raw { e with localai_timeout := n })
    | none => .error (.dk "LOCALAI_TIMEOUT_S must be an integer")
  | none => .ok (updTZ raw e)

/-- tools/dk.py ensure_file_exists over a file-system model mapping paths to
UTF-8 contents. -/
def ensure_file_exists (fs : List (String × String)) (path : String) :
    Except Failure Unit :=
  match fs.lookup path with
  | some _ => .ok ()
  | none => .error (.dk ("Input file not found: " ++ path))

/-- Field lookup on a JSON object, none on any other value. -/
def jGet : Json → List Char → Option Json
  | .obj fs, k => fs.lookup k
  | _, _ => none

/-- Python truthiness of a JSON value. -/
def jTruthy : Json → Bool
  | .null => false
  | .bool b => b
  | .num n => n != 0
  | .str s => !s.isEmpty
  | .arr l => !l.isEmpty
  | .obj l => !l.isEmpty

/-- ASCII uppercase letter, the [A-Z] class. -/
def isUpperCh (c : Char) : Bool := 65 ≤ c.toNat && c.toNat ≤ 90

/-- Match `marker ([A-Z][a-zA-Z]+)` at the head of the text: the marker
word, a space, an uppercase letter and at least one more letter, the letter
run greedy. Returns the group and the text after the match. -/
def matchMarkerAt (marker : List Char) (s : List Char) :
    Option (List Char × List Char) :=
  if (marker ++ [' ']).isPrefixOf s then
    match s.drop (marker.length + 1) with
    | c :: d :: rest =>
      if isUpperCh c && isAsciiLetterCh d then
        some (c :: d :: rest.takeWhile isAsciiLetterCh,
              rest.dropWhile isAsciiLetterCh)
      else none
    | _ => none
  else none

/-- re.findall of the participant pattern: non-overlapping matches scanning
left to right. Fuel is the text length; every step consumes at least one
character. -/
def findallMarker (marker : List Char) : Nat → List Char → List (List Char)
  | 0, _ => []
  | _ + 1, [] => []
  | fuel + 1, c :: tail =>
    match matchMarkerAt marker (c :: tail) with
    | some (g, after) => g :: findallMarker marker fuel after
    | none => findallMarker marker fuel tail

/-- Deduplicating append of the stub participant loop: keep first
occurrences in order. -/
def dedupAppend (acc : List (List Char)) (names : List (List Char)) :
    List (List Char) :=
  names.foldl (fun a n => if a.contains n then a else a ++ [n]) acc

/-- Participant extraction of build_metadata_stub: Agent matches then Caller
matches, each stripped, deduplicated by first occurrence. -/
def stubParticipants (text : List Char) : List (List Char) :=
  let agents := (findallMarker "Agent".toList text.length text).map pyStrip
  let callers := (findallMarker "Caller".toList text.length text).map pyStrip
  dedupAppend (dedupAppend [] agents) callers

/-- The [A-Za-z/] class of the time pattern's timezone token. -/
def isTzCh (c : Char) : Bool := isAsciiLetterCh c || c = '/'

/-- The [APMapm] class. -/
def isAmpmCh (c : Char) : Bool :=
  c = 'A' || c = 'P' || c = 'M' || c = 'a' || c = 'p' || c = 'm'

/-- Tail of the time pattern after the minutes: two meridiem-class letters,
then an optional whitespace and a greedy [A-Za-z/]* run. The trailing star
cannot fail, so the optional whitespace commits when present. -/
def timeAmpm : List Char → Option (List Char)
  | a :: b :: rest =>
    if isAmpmCh a && isAmpmCh b then
      some (a :: b ::
        (match rest with
         | w :: r2 => if isPyWs w then w :: r2.takeWhile isTzCh else rest.takeWhile isTzCh
         | [] => []))
    else none
  | _ => none

/-- The `\s?` before the meridiem: greedily try with the whitespace
consumed, backtracking to the empty match. -/
def timeTail (s : List Char) : Option (List Char) :=
  (match s with
   | w :: rest => if isPyWs w then (timeAmpm rest).map (fun t => w :: t) else none
   | [] => none) <|> timeAmpm s

/-- Colon and two minute digits, then the pattern tail. -/
def timeColon : List Char → Option (List Char)
  | ':' :: d3 :: d4 :: rest =>
    if d3.isDigit && d4.isDigit then
      (timeTail rest).map (fun t => ':' :: d3 :: d4 :: t)
    else none
  | _ => none

/-- The time pattern anchored at one position: one or two hour digits
(greedy, with backtracking), colon, minutes, meridiem, timezone. -/
def matchTimeAt : List Char → Option (List Char)
  | [] => none
  | d1 :: rest =>
    if d1.isDigit then
      (match rest with
       | d2 :: rest2 =>
         if d2.isDigit then (timeColon rest2).map (fun t => d1 :: d2 :: t) else none
       | [] => none) <|> (timeColon rest).map (fun t => d1 :: t)
    else none

/-- re.search of the time pattern: the match at the leftmost position where
one exists. -/
def reSearchTime : List Char → Option (List Char)
  | [] => none
  | c :: tail => matchTimeAt (c :: tail) <|> reSearchTime tail

/-- The issues list of build_metadata_stub: keyed on case-insensitive
substring presence of checkout and config change. -/
def stubIssues (text : List Char) : List Json :=
  (if containsSub "checkout".toList (lowerStr text) then
    [Json.str "Checkout API timeouts".toList] else []) ++
  (if containsSub "config change".toList (lowerStr text) then
    [Json.str "Recent config change".toList] else [])

/-- The constant summary of the metadata stub. -/
def metadataSummary : List Char :=
  ("Caller reported checkout API timeouts impacting customers; " ++
   "rollback is stabilizing while monitoring continues.").toList

/-- The constant action items of the metadata stub. -/
def metadataActionItems : List Json :=
  [Json.str "Send summary and next steps".toList,
   Json.str "Monitor checkout stability".toList]

/-- tools/dk.py build_metadata_stub. -/
def build_metadata_stub (text : List Char) (env : Environment) : Json :=
  Json.obj
    [("summary".toList, Json.str metadataSummary),
     ("participants".toList, Json.arr ((stubParticipants text).map Json.str)),
     ("sentiment".toList, Json.str "neutral".toList),
     ("call_datetime".toList,
       match reSearchTime text with
       | some t => Json.str (pyStrip t)
       | none => Json.null),
     ("timezone".toList, Json.str env.default_timezone),
     ("action_items".toList, Json.arr metadataActionItems),
     ("issues".toList, Json.arr (stubIssues text))]

/-- The incidents list of build_rollup_stub. -/
def stubIncidents (text : List Char) : List Json :=
  (if containsSub "checkout".toList (lowerStr text) then
    [Json.obj
      [("type".toList, Json.str "checkout-api".toList),
       ("description".toList,
         Json.str "Checkout API is timing out for production customers".toList),
       ("severity".toList, Json.str "high".toList)]] else []) ++
  (if containsSub "config change".toList (lowerStr text) then
    [Json.obj
      [("type".toList, Json.str "config-change".toList),
       ("description".toList,
         Json.str "Recent payment gateway config change correlated with incident".toList),
       ("severity".toList, Json.str "medium".toList)]] else [])

/-- tools/dk.py build_rollup_stub. -/
def build_rollup_stub (text : List Char) (_env : Environment) : Json :=
  Json.obj
    [("summary".toList,
       Json.str ("Intermittent checkout API failures; rollback underway " ++
         "and monitoring in place.").toList),
     ("incidents".toList, Json.arr (stubIncidents text)),
     ("next_steps".toList, Json.arr
       [Json.str "Confirm rollback completion".toList,
        Json.str "Monitor error rates".toList,
        Json.str "Share customer-facing summary".toList]),
     ("status".toList, Json.str "monitoring".toList)]

/-- A key of an object holds a value satisfying the predicate. -/
def checkKey (j : Json) (k : String) (p : Json → Bool) : Bool :=
  match jGet j k.toList with
  | some v => p v
  | none => false

/-- The value is a JSON string. -/
def jIsStr : Json → Bool
  | .str _ => true
  | _ => false

/-- The value is an array of strings. -/
def jIsStrArr : Json → Bool
  | .arr l => l.all jIsStr
  | _ => false

/-- The value is a string or null. -/
def jIsStrOrNull : Json → Bool
  | .str _ => true
  | .null => true
  | _ => false

/-- Modelled from the spec: schemas/metadata.schema.json is not under src/;
the shape is the metadata AnalysisResult of spec section 3 — summary,
sentiment and timezone strings, participants, action_items and issues
string sequences, call_datetime string or null. -/
def metadataSchemaValid (j : Json) : Bool :=
  checkKey j "summary" jIsStr &&
  checkKey j "participants" jIsStrArr &&
  checkKey j "sentiment" jIsStr &&
  checkKey j "call_datetime" jIsStrOrNull &&
  checkKey j "timezone" jIsStr &&
  checkKey j "action_items" jIsStrArr &&
  checkKey j "issues" jIsStrArr

/-- One rollup incident: type, description and severity strings. -/
def incidentValid (j : Json) : Bool :=
  checkKey j "type" jIsStr &&
  checkKey j "description" jIsStr &&
  checkKey j "severity" jIsStr

/-- Modelled from the spec: schemas/rollup.schema.json is not under src/;
the shape is the rollup AnalysisResult of spec section 3 — summary and
status strings, incidents a sequence of type/description/severity records,
next_steps a string sequence. -/
def rollupSchemaValid (j : Json) : Bool :=
  checkKey j "summary" jIsStr &&
  (match jGet j "incidents".toList with
   | some (.arr l) => l.all incidentValid
   | _ => false) &&
  checkKey j "next_steps" jIsStrArr &&
  checkKey j "status" jIsStr

/-- tools/dk.py validate_payload, with the two schema documents (which live
outside src/) modelled from the spec by the shape predicates above. The
deterministic first-violation choice over the validator's error list is
modelled separately by firstViolation. -/
def validate_payload (payload : Json) (schemaName : String) :
    Except Failure Unit :=
  let ok := if schemaName = "metadata" then metadataSchemaValid payload
    else if schemaName = "rollup" then rollupSchemaValid payload
    else false
  if ok then .ok ()
  else .error (.dk ("Schema validation failed for " ++ schemaName))

/-- A component of a jsonschema violation path: an array index or a property
name. -/
abbrev PathElem := Sum Nat (List Char)

/-- One detected schema violation, as iter_errors yields it. -/
structure Violation where
  path : List PathElem
  message : String
deriving Repr, DecidableEq

/-- Lexicographic comparison lifted to lists. -/
def listCmp (cmp : α → α → Ordering) : List α → List α → Ordering
  | [], [] => .eq
  | [], _ :: _ => .lt
  | _ :: _, [] => .gt
  | a :: as, b :: bs =>
    match cmp a b with
    | .eq => listCmp cmp as bs
    | o => o

/-- Character comparison by code point. -/
def charCmp (a b : Char) : Ordering := compare a.toNat b.toNat

/-- Path-component comparison. A mixed index/name comparison would raise
TypeError in Python; it cannot arise among violations of one payload, and
the ordering here is chosen arbitrarily to stay total. -/
def peCmp : PathElem → PathElem → Ordering
  | .inl n, .inl m => compare n m
  | .inr s, .inr t => listCmp charCmp s t
  | .inl _, .inr _ => .lt
  | .inr _, .inl _ => .gt

/-- Violation-path comparison, the sort key of validate_payload. -/
def pathCmp (a b : List PathElem) : Ordering := listCmp peCmp a b

/-- The sort of validate_payload: Python's stable sorted() keyed on the
violation path, modelled by a stable insertion sort. -/
def sortViolations (l : List Violation) : List Violation :=
  l.insertionSort (fun v w => pathCmp v.path w.path ≠ .gt)

/-- The violation validate_payload cites: the head of the stable sort of the
detected violations (lines 96-98 of dk.py), with iter_errors' output
abstracted as the input list. -/
def firstViolation (errors : List Violation) : Option Violation :=
  (sortViolations errors).head?

/-- tools/dk.py transcribe_openai, with the SDK response object modelled as
the JSON value it wraps. The text and segments fields go through Python's
`or` with empty-string and empty-list defaults; confidence and duration_s
are hard-coded null. -/
def transcribe_openai (resp : Json) (env : Environment) :
    Except Failure (List (List Char × Json)) :=
  match env.openai_api_key with
  | none => .error (.dk "OPENAI_API_KEY is required for OpenAI transcription")
  | some _ =>
    let textV := match jGet resp "text".toList with
      | some v => if jTruthy v then v else Json.str []
      | none => Json.str []
    let langV := (jGet resp "language".toList).getD (Json.str [])
    let segV := match jGet resp "segments".toList with
      | some v => if jTruthy v then v else Json.arr []
      | none => Json.arr []
    .ok [("text".toList, textV), ("language".toList, langV),
         ("confidence".toList, Json.null), ("duration_s".toList, Json.null),
         ("segments".toList, segV)]

/-- tools/dk.py transcribe_localai over an HTTP oracle: none models a raised
requests exception, otherwise a status code and the optional JSON body
(none when resp.json() raises). -/
def transcribe_localai (net : Option (Nat × Option Json)) (_env : Environment) :
    Except Failure (List (List Char × Json)) :=
  match net with
  | none => .error (.pyExc "requests exception (timeout or connection error)")
  | some (status, body) =>
    if status ≥ 400 then .error (.dk "LocalAI transcription failed")
    else match body with
      | none => .error (.pyExc "response body is not JSON")
      | some payload =>
        match payload with
        | .obj _ =>
          .ok [("text".toList, (jGet payload "text".toList).getD (Json.str [])),
               ("language".toList, (jGet payload "language".toList).getD (Json.str [])),
               ("confidence".toList, Json.null), ("duration_s".toList, Json.null),
               ("segments".toList,
                 match jGet payload "segments".toList with
                 | some v => if jTruthy v then v else Json.arr []
                 | none => Json.arr [])]
        | _ => .error (.pyExc "response payload is not an object")

/-- dict.setdefault on the assoc-list payload. -/
def setdefault (l : List (List Char × Json)) (k : List Char) (v : Json) :
    List (List Char × Json) :=
  if (l.lookup k).isSome then l else l ++ [(k, v)]

/-- tools/dk.py validate_transcription_payload: the five required keys in
order, then the segments-is-a-list check. -/
def validate_transcription_payload (p : List (List Char × Json)) :
    Except Failure Unit :=
  if (p.lookup "text".toList).isNone then
    .error (.dk "Transcription payload missing text")
  else if (p.lookup "language".toList).isNone then
    .error (.dk "Transcription payload missing language")
  else if (p.lookup "confidence".toList).isNone then
    .error (.dk "Transcription payload missing confidence")
  else if (p.lookup "duration_s".toList).isNone then
    .error (.dk "Transcription payload missing duration_s")
  else if (p.lookup "segments".toList).isNone then
    .error (.dk "Transcription payload missing segments")
  else match p.lookup "segments".toList with
    | some (Json.arr _) => .ok ()
    | _ => .error (.dk "segments must be an array")

/-- tools/dk.py perform_transcription: file check, backend dispatch (the
OpenAI oracle is none when the SDK raises), segments setdefault, payload
validation. -/
def perform_transcription (fs : List (String × String)) (path : String)
    (env : Environment) (onet : Option Json) (lnet : Option (Nat × Option Json)) :
    Except Failure (List (List Char × Json)) := do
  let _ ← ensure_file_exists fs path
  let result ←
    if env.transcribe_backend = "openai".toList then
      match onet with
      | none => Except.error (Failure.pyExc "OpenAI SDK exception")
      | some resp => transcribe_openai resp env
    else if env.transcribe_backend = "localai".toList then
      transcribe_localai lnet env
    else
      Except.error (Failure.dk ("Unsupported TRANSCRIBE_BACKEND: " ++
        String.mk env.transcribe_backend))
  let result := setdefault result "segments".toList (Json.arr [])
  let _ ← validate_transcription_payload result
  pure result

/-- The constant system prompt of the analysis chat call. -/
def analysisPrompt : List Char :=
  ("You are DispatchKernel. Extract a single JSON object only. " ++
   "Do not include prose or code fences. " ++
   "Validate against the provided schema.").toList

/-- tools/dk.py call_localai_chat over an HTTP oracle: none models a raised
requests exception (the timeout is enforced by requests itself), otherwise a
status and optional JSON body. The first choice's message content feeds
extract_first_json; an extraction failure is a DKError, while non-dict
response shapes raise uncaught attribute/type errors. -/
def call_localai_chat (_prompt _text : List Char)
    (net : Option (Nat × Option Json)) (_env : Environment) :
    Except Failure Json :=
  match net with
  | none => .error (.pyExc "requests exception (timeout or connection error)")
  | some (status, body) =>
    if status ≥ 400 then .error (.dk "LocalAI analysis failed")
    else match body with
      | none => .error (.pyExc "response body is not JSON")
      | some payload =>
        match payload with
        | .obj _ =>
          match jGet payload "choices".toList with
          | some (Json.arr (c :: _)) =>
            (match c with
             | .obj _ =>
               match (jGet c "message".toList).getD (Json.obj []) with
               | .obj mfs =>
                 (match (jGet (Json.obj mfs) "content".toList).getD (Json.str []) with
                  | .str s => (extract_first_json s).mapError Failure.dk
                  | _ => .error (.pyExc "message content is not a string"))
               | _ => .error (.pyExc "message is not an object")
             | _ => .error (.pyExc "choices entry is not an object"))
          | some (Json.arr []) => .error (.dk "LocalAI response missing choices")
          | some v =>
            if jTruthy v then .error (.pyExc "choices is not a list")
            else .error (.dk "LocalAI response missing choices")
          | none => .error (.dk "LocalAI response missing choices")
        | _ => .error (.pyExc "response payload is not an object")

/-- tools/dk.py perform_analysis: mode normalization and check, stub or
localai backend, schema validation of the result. -/
def perform_analysis (text : List Char) (mode : String) (env : Environment)
    (net : Option (Nat × Option Json)) : Except Failure Json :=
  let m := String.mk (lowerStr mode.toList)
  if m ≠ "metadata" ∧ m ≠ "rollup" then
    .error (.dk ("Unsupported analysis mode: " ++ m))
  else if env.analyze_backend = "stub".toList then
    if m = "metadata" then do
      let r := build_metadata_stub text env
      let _ ← validate_payload r "metadata"
      pure r
    else do
      let r := build_rollup_stub text env
      let _ ← validate_payload r "rollup"
      pure r
  else if env.analyze_backend ≠ "localai".toList then
    .error (.dk ("Unsupported ANALYZE_BACKEND: " ++ String.mk env.analyze_backend))
  else do
    let raw ← call_localai_chat analysisPrompt text net env
    let _ ← validate_payload raw (if m = "metadata" then "metadata" else "rollup")
    pure raw

/-- What a command leaves on stderr: nothing, the single-line JSON error
envelope of emit_error, or an uncaught-exception traceback. -/
inductive StderrOut where
  | empty
  | envelope (error : String) (code : String)
  | traceback (desc : String)
deriving Repr, DecidableEq

/-- The envelope constructor, for stating non-envelope outcomes. -/
def isEnvelope : StderrOut → Bool
  | .envelope _ _ => true
  | _ => false

/-- Observable outcome of one CLI invocation. -/
structure CliResult where
  exitCode : Nat
  stdout : Option Json
  fileOut : Option (String × Json)
  stderr : StderrOut
deriving Repr

/-- The try-block body of the analyze command. -/
def analyzeInner (raw : List (String × String)) (fs : List (String × String))
    (inputPath : String) (mode : String) (net : Option (Nat × Option Json)) :
    Except Failure Json := do
  let env ← load_environment raw
  let _ ← ensure_file_exists fs inputPath
  let text := ((fs.lookup inputPath).getD "").toList
  perform_analysis text mode env net

/-- tools/dk.py analyze command: DKError becomes the analysis_error
envelope with exit 1; any other exception escapes as a traceback. -/
def analyzeCmd (raw : List (String × String)) (fs : List (String × String))
    (inputPath : String) (mode : String) (net : Option (Nat × Option Json)) :
    CliResult :=
  match analyzeInner raw fs inputPath mode net with
  | .ok r => ⟨0, some r, none, .empty⟩
  | .error (.dk m) => ⟨1, none, none, .envelope m "analysis_error"⟩
  | .error (.pyExc d) => ⟨1, none, none, .traceback d⟩

/-- The try-block body of the transcribe command. -/
def transcribeInner (raw : List (String × String)) (fs : List (String × String))
    (inputPath : String) (onet : Option Json) (lnet : Option (Nat × Option Json)) :
    Except Failure (List (List Char × Json)) := do
  let env ← load_environment raw
  perform_transcription fs inputPath env onet lnet

/-- tools/dk.py transcribe command: success goes to the output file when
given, stdout otherwise; DKError becomes the transcribe_error envelope. -/
def transcribeCmd (raw : List (String × String)) (fs : List (String × String))
    (inputPath : String) (out : Option String) (onet : Option Json)
    (lnet : Option (Nat × Option Json)) : CliResult :=
  match transcribeInner raw fs inputPath onet lnet with
  | .ok r =>
    match out with
    | some o => ⟨0, none, some (o, Json.obj r), .empty⟩
    | none => ⟨0, some (Json.obj r), none, .empty⟩
  | .error (.dk m) => ⟨1, none, none, .envelope m "transcribe_error"⟩
  | .error (.pyExc d) => ⟨1, none, none, .traceback d⟩

/-- The try-block body of the pipeline command: transcription, then metadata
and rollup analysis of the transcribed text, nested under fixed keys. -/
def pipelineInner (raw : List (String × String)) (fs : List (String × String))
    (inputPath : String) (onet : Option Json) (lnet : Option (Nat × Option Json))
    (anet1 anet2 : Option (Nat × Option Json)) : Except Failure Json := do
  let env ← load_environment raw
  let t ← perform_transcription fs inputPath env onet lnet
  match (t.lookup "text".toList).getD (Json.str []) with
  | .str s => do
    let m ← perform_analysis s "metadata" env anet1
    let r ← perform_analysis s "rollup" env anet2
    pure (Json.obj [("transcription".toList, Json.obj t),
                    ("metadata".toList, m), ("rollup".toList, r)])
  | _ => .error (.pyExc "transcription text is not a string")

/-- tools/dk.py pipeline command: DKError becomes the pipeline_error
envelope with exit 1. -/
def pipelineCmd (raw : List (String × String)) (fs : List (String × String))
    (inputPath : String) (onet : Option Json) (lnet : Option (Nat × Option Json))
    (anet1 anet2 : Option (Nat × Option Json)) : CliResult :=
  match pipelineInner raw fs inputPath onet lnet anet1 anet2 with
  | .ok r => ⟨0, some r, none, .empty⟩
  | .error (.dk m) => ⟨1, none, none, .envelope m "pipeline_error"⟩
  | .error (.pyExc d) => ⟨1, none, none, .traceback d⟩

/-! ## Generic helpers -/

theorem takeWhile_append_all {p : Char → Bool} {a b : List Char}
    (h : ∀ c ∈ a, p c = true) : (a ++ b).takeWhile p = a ++ b.takeWhile p := by
  induction a with
  | nil => rfl
  | cons x xs ih =>
    simp only [List.cons_append, List.takeWhile_cons, h x (by simp)]
    simp [ih (fun c hc => h c (by simp [hc]))]

theorem dropWhile_append_all {p : Char → Bool} {a b : List Char}
    (h : ∀ c ∈ a, p c = true) : (a ++ b).dropWhile p = b.dropWhile p := by
  induction a with
  | nil => rfl
  | cons x xs ih =>
    simp only [List.cons_append, List.dropWhile_cons, h x (by simp)]
    simp [ih (fun c hc => h c (by simp [hc]))]

theorem takeWhile_cons_neg {p : Char → Bool} {b : List Char} {c : Char}
    (h : p c = false) : (c :: b).takeWhile p = [] := by
  simp [List.takeWhile_cons, h]

theorem dropWhile_cons_neg {p : Char → Bool} {b : List Char} {c : Char}
    (h : p c = false) : (c :: b).dropWhile p = c :: b := by
  simp [List.dropWhile_cons, h]

theorem toNat_ofNat_valid {n : Nat} (h : n < 55296) : (Char.ofNat n).toNat = n := by
  have hv : n.isValidChar := Or.inl h
  simp only [Char.ofNat, hv, dif_pos, Char.ofNatAux]
  rfl

theorem digit_toNat {c : Char} (h : c.isDigit = true) :
    48 ≤ c.toNat ∧ c.toNat ≤ 57 := by
  simp only [Char.isDigit, Bool.and_eq_true, decide_eq_true_eq, ge_iff_le] at h
  exact h

theorem ne_of_digit {c c' : Char} (h : c.isDigit = true) (h' : c'.isDigit = false) :
    c ≠ c' := by
  rintro rfl
  rw [h] at h'
  cases h'

/-! ## Decimal digits -/

theorem natDigitsAux_adequate (n : Nat) :
    ∀ f1 f2, n < f1 → n < f2 → natDigitsAux f1 n = natDigitsAux f2 n := by
  induction n using Nat.strong_induction_on with
  | _ n ih =>
    intro f1 f2 h1 h2
    match f1, f2 with
    | g1 + 1, g2 + 1 =>
      by_cases h : n < 10
      · simp [natDigitsAux, h]
      · have hlt : n / 10 < n := Nat.div_lt_self (by omega) (by omega)
        simp only [natDigitsAux, if_neg h]
        rw [ih (n / 10) hlt g1 g2 (by omega) (by omega)]

theorem natDigits_lt_10 (n : Nat) (h : n < 10) :
    natDigits n = [Char.ofNat (48 + n)] := by
  rw [natDigits]
  simp [natDigitsAux, h]

theorem natDigits_ge_10 (n : Nat) (h : ¬ n < 10) :
    natDigits n = natDigits (n / 10) ++ [Char.ofNat (48 + n % 10)] := by
  have hlt : n / 10 < n := Nat.div_lt_self (by omega) (by omega)
  have step : natDigitsAux (n + 1) n =
      if n < 10 then [Char.ofNat (48 + n)]
      else natDigitsAux n (n / 10) ++ [Char.ofNat (48 + n % 10)] := rfl
  rw [natDigits, step, if_neg h,
    natDigitsAux_adequate (n / 10) n (n / 10 + 1) hlt (by omega)]
  rfl

theorem digitChar_isDigit {k : Nat} (h : k < 10) :
    (Char.ofNat (48 + k)).isDigit = true := by
  have ht : (Char.ofNat (48 + k)).toNat = 48 + k := toNat_ofNat_valid (by omega)
  have key : 48 ≤ (Char.ofNat (48 + k)).toNat ∧ (Char.ofNat (48 + k)).toNat ≤ 57 := by
    rw [ht]; omega
  simp only [Char.isDigit, Bool.and_eq_true, decide_eq_true_eq, ge_iff_le]
  exact key

theorem natDigits_all_digits (n : Nat) : ∀ c ∈ natDigits n, c.isDigit = true := by
  induction n using Nat.strong_induction_on with
  | _ n ih =>
    by_cases h : n < 10
    · rw [natDigits_lt_10 n h]
      intro c hc
      rw [List.mem_singleton] at hc
      subst hc
      exact digitChar_isDigit h
    · rw [natDigits_ge_10 n h]
      intro c hc
      rcases List.mem_append.mp hc with hc | hc
      · exact ih (n / 10) (Nat.div_lt_self (by omega) (by omega)) c hc
      · rw [List.mem_singleton] at hc
        subst hc
        exact digitChar_isDigit (Nat.mod_lt _ (by omega))

theorem natDigits_ne_nil (n : Nat) : natDigits n ≠ [] := by
  by_cases h : n < 10
  · rw [natDigits_lt_10 n h]; simp
  · rw [natDigits_ge_10 n h]; simp

theorem digitVal_digitChar {k : Nat} (h : k < 10) : digitVal (Char.ofNat (48 + k)) = k := by
  have ht : (Char.ofNat (48 + k)).toNat = 48 + k := toNat_ofNat_valid (by omega)
  simp [digitVal, ht]

theorem digitsToNat_append_one (a : List Char) (c : Char) :
    digitsToNat (a ++ [c]) = 10 * digitsToNat a + digitVal c := by
  simp [digitsToNat, List.foldl_append]

theorem digitsToNat_natDigits (n : Nat) : digitsToNat (natDigits n) = n := by
  induction n using Nat.strong_induction_on with
  | _ n ih =>
    by_cases h : n < 10
    · rw [natDigits_lt_10 n h]
      have : digitsToNat [Char.ofNat (48 + n)] = digitVal (Char.ofNat (48 + n)) := by
        simp [digitsToNat, digitVal]
      rw [this, digitVal_digitChar h]
    · rw [natDigits_ge_10 n h, digitsToNat_append_one,
        ih (n / 10) (Nat.div_lt_self (by omega) (by omega)),
        digitVal_digitChar (Nat.mod_lt _ (by omega))]
      omega

theorem natDigits_head_pos (n : Nat) (hn : 0 < n) :
    ∃ c t, natDigits n = c :: t ∧ c.isDigit = true ∧ c ≠ '0' := by
  induction n using Nat.strong_induction_on with
  | _ n ih =>
    by_cases h : n < 10
    · refine ⟨Char.ofNat (48 + n), [], natDigits_lt_10 n h, digitChar_isDigit h, ?_⟩
      intro hc
      have h1 := congrArg Char.toNat hc
      have h2 : ('0' : Char).toNat = 48 := rfl
      rw [toNat_ofNat_valid (by omega), h2] at h1
      omega
    · obtain ⟨c, t, he, hd, hz⟩ :=
        ih (n / 10) (Nat.div_lt_self (by omega) (by omega)) (by omega)
      exact ⟨c, t ++ [Char.ofNat (48 + n % 10)],
        by rw [natDigits_ge_10 n h, he]; simp, hd, hz⟩

/-! ## Number-token round trip -/

theorem numSafe_head {rest : List Char} (hr : numSafeB rest = true) :
    rest.takeWhile Char.isDigit = [] ∧ rest.dropWhile Char.isDigit = rest ∧
      (match rest with
        | c :: _ => c.isDigit = false ∧ (c = '.') = False ∧ (c = 'e') = False ∧
            (c = 'E') = False
        | [] => True) := by
  match rest with
  | [] => exact ⟨rfl, rfl, trivial⟩
  | c :: r =>
    simp only [numSafeB, Bool.not_eq_eq_eq_not, Bool.not_true, Bool.or_eq_false_iff,
      decide_eq_false_iff_not] at hr
    obtain ⟨⟨⟨hd, h1⟩, h2⟩, h3⟩ := hr
    exact ⟨takeWhile_cons_neg hd, dropWhile_cons_neg hd,
      ⟨hd, eq_false h1, eq_false h2, eq_false h3⟩⟩

theorem parseNumToken_natDigits (n : Nat) (rest : List Char)
    (hr : numSafeB rest = true) :
    parseNumToken (natDigits n ++ rest) = some (n, rest) := by
  obtain ⟨htw, hdw, hh⟩ := numSafe_head hr
  by_cases h0 : n = 0
  · subst h0
    have he : natDigits 0 = ['0'] := by decide
    rw [he]
    match rest with
    | [] => rfl
    | c :: r =>
      obtain ⟨hd, h1, h2, h3⟩ := hh
      simp [parseNumToken, hd, h1, h2, h3]
  · by_cases h : n < 10
    · obtain ⟨c, t, he, hd, hz⟩ := natDigits_head_pos n (by omega)
      rw [natDigits_lt_10 n h] at he
      obtain ⟨rfl, rfl⟩ : c = Char.ofNat (48 + n) ∧ t = [] := by
        cases he; exact ⟨rfl, rfl⟩
      rw [natDigits_lt_10 n h]
      simp only [List.cons_append, List.nil_append, parseNumToken, if_neg hz, hd,
        if_pos, htw, hdw]
      have hval : digitsToNat [Char.ofNat (48 + n)] = n := by
        have : digitsToNat [Char.ofNat (48 + n)] = digitVal (Char.ofNat (48 + n)) := by
          simp [digitsToNat, digitVal]
        rw [this, digitVal_digitChar h]
      match rest with
      | [] => simp [hval]
      | c' :: r' =>
        obtain ⟨hd', h1, h2, h3⟩ := hh
        simp [hval, h1, h2, h3]
    · obtain ⟨c, t, he, hd, hz⟩ := natDigits_head_pos (n / 10)
        (Nat.div_pos (by omega) (by omega))
      have hsplit : natDigits n = natDigits (n / 10) ++ [Char.ofNat (48 + n % 10)] :=
        natDigits_ge_10 n h
      have hmem : ∀ x ∈ t ++ [Char.ofNat (48 + n % 10)], x.isDigit = true := by
        intro x hx
        have hxn : x ∈ natDigits n := by
          rw [hsplit]
          rcases List.mem_append.mp hx with hx | hx
          · exact List.mem_append.mpr (Or.inl (by
              rw [he]; exact List.mem_cons_of_mem _ hx))
          · exact List.mem_append.mpr (Or.inr hx)
        exact natDigits_all_digits n x hxn
      rw [hsplit, he]
      have harr : ((c :: t) ++ [Char.ofNat (48 + n % 10)]) ++ rest =
          c :: ((t ++ [Char.ofNat (48 + n % 10)]) ++ rest) := by simp
      rw [harr]
      have htake : ((t ++ [Char.ofNat (48 + n % 10)]) ++ rest).takeWhile Char.isDigit =
          t ++ [Char.ofNat (48 + n % 10)] := by
        rw [takeWhile_append_all hmem, htw, List.append_nil]
      have hdrop : ((t ++ [Char.ofNat (48 + n % 10)]) ++ rest).dropWhile Char.isDigit =
          rest := by
        rw [dropWhile_append_all hmem, hdw]
      have hval : digitsToNat (c :: (t ++ [Char.ofNat (48 + n % 10)])) = n := by
        have h1 : c :: (t ++ [Char.ofNat (48 + n % 10)]) =
            (c :: t) ++ [Char.ofNat (48 + n % 10)] := by simp
        rw [h1, digitsToNat_append_one, ← he, digitsToNat_natDigits,
          digitVal_digitChar (Nat.mod_lt _ (by omega))]
        omega
      simp only [parseNumToken, if_neg hz, hd, if_pos, htake, hdrop, hval]
      match rest with
      | [] => simp
      | c' :: r' =>
        obtain ⟨hd', h1, h2, h3⟩ := hh
        simp [h1, h2, h3]

/-! ## String-literal round trip -/

theorem hexVal1_hexDigit {k : Nat} (h : k < 16) : hexVal1 (hexDigit k) = some k := by
  by_cases h10 : k < 10
  · have ht : (Char.ofNat (48 + k)).toNat = 48 + k := toNat_ofNat_valid (by omega)
    rw [hexDigit, if_pos h10, hexVal1, ht, if_pos (by omega)]
    simp
  · have ht : (Char.ofNat (87 + k)).toNat = 87 + k := toNat_ofNat_valid (by omega)
    rw [hexDigit, if_neg h10, hexVal1, ht, if_neg (by omega), if_pos (by omega)]
    simp

theorem hexVal4_control {n : Nat} (h : n < 32) :
    hexVal4 '0' '0' (hexDigit (n / 16)) (hexDigit (n % 16)) = some n := by
  have hz : hexVal1 '0' = some 0 := by decide
  rw [hexVal4, hz]
  rw [hexVal1_hexDigit (by omega), hexVal1_hexDigit (Nat.mod_lt _ (by omega))]
  show some (((0 * 16 + 0) * 16 + n / 16) * 16 + n % 16) = some n
  congr 1
  omega

theorem parseStringBody_escape (s rest : List Char) :
    parseStringBody (escString s ++ '"' :: rest) = some (s, rest) := by
  induction s with
  | nil =>
    show parseStringBody (([] : List Char) ++ '"' :: rest) = some ([], rest)
    rfl
  | cons c cs ih =>
    have hesc : escString (c :: cs) = escChar c ++ escString cs := by
      simp [escString]
    rw [hesc, List.append_assoc]
    by_cases h1 : c = '"'
    · subst h1
      show parseStringBody ('\\' :: '"' :: (escString cs ++ '"' :: rest)) = _
      have hstep : parseStringBody ('\\' :: '"' :: (escString cs ++ '"' :: rest)) =
          (escDecode '"').bind fun d =>
            (parseStringBody (escString cs ++ '"' :: rest)).map
              fun p => (d :: p.1, p.2) := rfl
      rw [hstep, ih]
      rfl
    · by_cases h2 : c = '\\'
      · subst h2
        show parseStringBody ('\\' :: '\\' :: (escString cs ++ '"' :: rest)) = _
        have hstep : parseStringBody ('\\' :: '\\' :: (escString cs ++ '"' :: rest)) =
            (escDecode '\\').bind fun d =>
              (parseStringBody (escString cs ++ '"' :: rest)).map
                fun p => (d :: p.1, p.2) := rfl
        rw [hstep, ih]
        rfl
      · by_cases h3 : c.toNat < 32
        · have hchunk : escChar c = ['\\', 'u', '0', '0',
              hexDigit (c.toNat / 16), hexDigit (c.toNat % 16)] := by
            rw [escChar, if_neg h1, if_neg h2, if_pos h3]
          rw [hchunk]
          show parseStringBody ('\\' :: 'u' :: '0' :: '0' ::
            hexDigit (c.toNat / 16) :: hexDigit (c.toNat % 16) ::
            (escString cs ++ '"' :: rest)) = _
          have hstep : parseStringBody ('\\' :: 'u' :: '0' :: '0' ::
              hexDigit (c.toNat / 16) :: hexDigit (c.toNat % 16) ::
              (escString cs ++ '"' :: rest)) =
              (hexVal4 '0' '0' (hexDigit (c.toNat / 16)) (hexDigit (c.toNat % 16))).bind
                (fun n => (parseStringBody (escString cs ++ '"' :: rest)).map
                  (fun p => (Char.ofNat n :: p.1, p.2))) := rfl
          rw [hstep, hexVal4_control h3, ih]
          simp [Char.ofNat_toNat]
        · have hchunk : escChar c = [c] := by
            rw [escChar, if_neg h1, if_neg h2, if_neg h3]
          rw [hchunk]
          show parseStringBody (c :: (escString cs ++ '"' :: rest)) = _
          have hstep : parseStringBody (c :: (escString cs ++ '"' :: rest)) =
              if c = '"' then some ([], escString cs ++ '"' :: rest)
              else if c = '\\' then parseStringEsc (escString cs ++ '"' :: rest)
              else if c.toNat < 32 then none
              else (parseStringBody (escString cs ++ '"' :: rest)).map
                fun p => (c :: p.1, p.2) := rfl
          rw [hstep, if_neg h1, if_neg h2, if_neg h3, ih]
          rfl

/-! ## Serialized values: head characters and context conditions -/

theorem char_ne_of_toNat {c d : Char} (h : c.toNat ≠ d.toNat) : c ≠ d := by
  intro he
  exact h (he ▸ rfl)

theorem digit_head_facts {c : Char} (h : c.isDigit = true) :
    isJsonWs c = false ∧ c ≠ ']' ∧ c ≠ '}' ∧ c ≠ ',' ∧ c ≠ ':' := by
  obtain ⟨h1, h2⟩ := digit_toNat h
  have w1 : (' ' : Char).toNat = 32 := rfl
  have w2 : ('\t' : Char).toNat = 9 := rfl
  have w3 : ('\n' : Char).toNat = 10 := rfl
  have w4 : ('\r' : Char).toNat = 13 := rfl
  have v1 : (']' : Char).toNat = 93 := rfl
  have v2 : ('}' : Char).toNat = 125 := rfl
  have v3 : (',' : Char).toNat = 44 := rfl
  have v4 : (':' : Char).toNat = 58 := rfl
  refine ⟨?_, ?_, ?_, ?_, ?_⟩
  · simp only [isJsonWs, Bool.or_eq_false_iff, decide_eq_false_iff_not]
    exact ⟨⟨⟨char_ne_of_toNat (by omega), char_ne_of_toNat (by omega)⟩,
      char_ne_of_toNat (by omega)⟩, char_ne_of_toNat (by omega)⟩
  · exact char_ne_of_toNat (by omega)
  · exact char_ne_of_toNat (by omega)
  · exact char_ne_of_toNat (by omega)
  · exact char_ne_of_toNat (by omega)

theorem dumpsV_head (v : Json) : ∃ c t, dumpsV v = c :: t ∧
    isJsonWs c = false ∧ c ≠ ']' ∧ c ≠ '}' ∧ c ≠ ',' ∧ c ≠ ':' := by
  cases v with
  | null => exact ⟨'n', _, rfl, by decide, by decide, by decide, by decide, by decide⟩
  | bool b =>
    cases b with
    | true => exact ⟨'t', _, rfl, by decide, by decide, by decide, by decide, by decide⟩
    | false => exact ⟨'f', _, rfl, by decide, by decide, by decide, by decide, by decide⟩
  | str s => exact ⟨'"', _, rfl, by decide, by decide, by decide, by decide, by decide⟩
  | arr xs => exact ⟨'[', _, rfl, by decide, by decide, by decide, by decide, by decide⟩
  | obj fs => exact ⟨'{', _, rfl, by decide, by decide, by decide, by decide, by decide⟩
  | num i =>
    show ∃ c t, intChars i = c :: t ∧ _
    rw [intChars]
    by_cases hneg : i < 0
    · rw [if_pos hneg]
      exact ⟨'-', _, rfl, by decide, by decide, by decide, by decide, by decide⟩
    · rw [if_neg hneg]
      match hd : natDigits i.toNat with
      | [] => exact absurd hd (natDigits_ne_nil _)
      | c :: t =>
        have hdig : c.isDigit = true :=
          natDigits_all_digits i.toNat c (by rw [hd]; exact List.mem_cons_self _ _)
        obtain ⟨w1, w2, w3, w4, w5⟩ := digit_head_facts hdig
        exact ⟨c, t, rfl, w1, w2, w3, w4, w5⟩

theorem skipWs_cons_neg {c : Char} {r : List Char} (h : isJsonWs c = false) :
    skipWs (c :: r) = c :: r := dropWhile_cons_neg h

theorem skipWs_dumpsV (v : Json) (r : List Char) :
    skipWs (dumpsV v ++ r) = dumpsV v ++ r := by
  obtain ⟨c, t, he, hw, -⟩ := dumpsV_head v
  rw [he, List.cons_append]
  exact skipWs_cons_neg hw

theorem restSafe_any (v : Json) {rest : List Char} (h : numSafeB rest = true) :
    restSafe v rest := by
  cases v <;> simp [restSafe, h]

theorem pSizeV_pos (v : Json) : 1 ≤ pSizeV v := by
  cases v <;> simp [pSizeV] <;> omega

theorem dumpsElems_cons_append (y : Json) (ys : List Json) (r : List Char) :
    dumpsElems (y :: ys) ++ r =
      dumpsV y ++ (match ys with
        | [] => r
        | _ :: _ => ',' :: (dumpsElems ys ++ r)) := by
  cases ys <;> simp [dumpsElems]

theorem dumpsFields_cons_quote (k : List Char) (v : Json)
    (fs : List (List Char × Json)) (r : List Char) :
    ∃ w, dumpsFields ((k, v) :: fs) ++ r = '"' :: w := by
  cases fs with
  | nil =>
    exact ⟨escString k ++ '"' :: ':' :: (dumpsV v ++ r), by simp [dumpsFields]⟩
  | cons kv2 fs2 =>
    exact ⟨escString k ++ '"' :: ':' ::
      (dumpsV v ++ ',' :: (dumpsFields (kv2 :: fs2) ++ r)), by simp [dumpsFields]⟩

theorem skipWs_dumpsFields_cons (kv : List Char × Json)
    (fs : List (List Char × Json)) (r : List Char) :
    skipWs (dumpsFields (kv :: fs) ++ r) = dumpsFields (kv :: fs) ++ r := by
  obtain ⟨k, v⟩ := kv
  obtain ⟨w, hw⟩ := dumpsFields_cons_quote k v fs r
  rw [hw]
  exact skipWs_cons_neg (by decide)

/-! ## The parser inverts the serializer -/

theorem parse_dumps (fuel : Nat) :
    (∀ v rest, pSizeV v ≤ fuel → restSafe v rest →
      parseVal fuel (dumpsV v ++ rest) = some (v, rest)) ∧
    (∀ xs rest, 1 + pSizeL xs ≤ fuel →
      parseElems fuel (dumpsElems xs ++ ']' :: rest) = some (.arr xs, rest)) ∧
    (∀ x xs rest, pSizeL (x :: xs) ≤ fuel →
      parseElems1 fuel (dumpsElems (x :: xs) ++ ']' :: rest) = some (x :: xs, rest)) ∧
    (∀ fs rest, 1 + pSizeF fs ≤ fuel →
      parseFields fuel (dumpsFields fs ++ '}' :: rest) = some (.obj fs, rest)) ∧
    (∀ kv fs rest, pSizeF (kv :: fs) ≤ fuel →
      parseFields1 fuel (dumpsFields (kv :: fs) ++ '}' :: rest) = some (kv :: fs, rest)) := by
  induction fuel with
  | zero =>
    refine ⟨?_, ?_, ?_, ?_, ?_⟩
    · intro v rest hs _
      have := pSizeV_pos v
      omega
    · intro xs rest hs
      omega
    · intro x xs rest hs
      simp only [pSizeL] at hs
      omega
    · intro fs rest hs
      omega
    · intro kv fs rest hs
      obtain ⟨k, v⟩ := kv
      simp only [pSizeF] at hs
      omega
  | succ g ih =>
    obtain ⟨ihP, ihQ, ihQ1, ihR, ihR1⟩ := ih
    have hstepE1 : ∀ s, parseElems1 (g + 1) s =
        (parseVal g s).bind (fun p =>
          match skipWs p.2 with
          | ',' :: r' => (parseElems1 g (skipWs r')).bind
              (fun q => some (p.1 :: q.1, q.2))
          | ']' :: r' => some ([p.1], r')
          | _ => none) := fun s => rfl
    have hstepF1 : ∀ r, parseFields1 (g + 1) ('"' :: r) =
        (parseStringBody r).bind (fun p =>
          match skipWs p.2 with
          | ':' :: r3 => (parseVal g (skipWs r3)).bind (fun q =>
              match skipWs q.2 with
              | ',' :: r6 => (parseFields1 g (skipWs r6)).bind
                  (fun w => some ((p.1, q.1) :: w.1, w.2))
              | '}' :: r6 => some ([(p.1, q.1)], r6)
              | _ => none)
          | _ => none) := fun r => rfl
    have hP : ∀ v rest, pSizeV v ≤ g + 1 → restSafe v rest →
        parseVal (g + 1) (dumpsV v ++ rest) = some (v, rest) := by
      intro v rest hs hrs
      cases v with
      | null => rfl
      | bool b => cases b <;> rfl
      | str s =>
        have harr : dumpsV (Json.str s) ++ rest =
            '"' :: (escString s ++ '"' :: rest) := by simp [dumpsV]
        rw [harr]
        have hstep : parseVal (g + 1) ('"' :: (escString s ++ '"' :: rest)) =
            (parseStringBody (escString s ++ '"' :: rest)).map
              fun p => (Json.str p.1, p.2) := rfl
        rw [hstep, parseStringBody_escape]
        rfl
      | num i =>
        have hnum : numSafeB rest = true := hrs
        by_cases hneg : i < 0
        · have harr : dumpsV (Json.num i) ++ rest =
              '-' :: (natDigits i.natAbs ++ rest) := by
            simp [dumpsV, intChars, if_pos hneg]
          rw [harr]
          have hstep : parseVal (g + 1) ('-' :: (natDigits i.natAbs ++ rest)) =
              (parseNumToken (natDigits i.natAbs ++ rest)).map
                fun p => (Json.num (-(p.1 : Int)), p.2) := rfl
          rw [hstep, parseNumToken_natDigits _ _ hnum]
          have hival : -((i.natAbs : Nat) : Int) = i := by omega
          show some (Json.num (-((i.natAbs : Nat) : Int)), rest) =
            some (Json.num i, rest)
          rw [hival]
        · have harr : dumpsV (Json.num i) ++ rest = natDigits i.toNat ++ rest := by
            simp [dumpsV, intChars, if_neg hneg]
          rw [harr]
          match hnd : natDigits i.toNat with
          | [] => exact absurd hnd (natDigits_ne_nil _)
          | c :: t =>
            have hdig : c.isDigit = true :=
              natDigits_all_digits i.toNat c (by rw [hnd]; exact List.mem_cons_self _ _)
            obtain ⟨hd1, hd2⟩ := digit_toNat hdig
            have e1 : ('{' : Char).toNat = 123 := rfl
            have e2 : ('[' : Char).toNat = 91 := rfl
            have e3 : ('"' : Char).toNat = 34 := rfl
            have e4 : ('n' : Char).toNat = 110 := rfl
            have e5 : ('t' : Char).toNat = 116 := rfl
            have e6 : ('f' : Char).toNat = 102 := rfl
            have e7 : ('-' : Char).toNat = 45 := rfl
            have hstep : parseVal (g + 1) (c :: (t ++ rest)) =
                (if c = '{' then parseFields g (skipWs (t ++ rest))
                 else if c = '[' then parseElems g (skipWs (t ++ rest))
                 else if c = '"' then (parseStringBody (t ++ rest)).map
                    fun p => (Json.str p.1, p.2)
                 else if c = 'n' then
                    (match t ++ rest with
                     | 'u' :: 'l' :: 'l' :: r => some (Json.null, r)
                     | _ => none)
                 else if c = 't' then
                    (match t ++ rest with
                     | 'r' :: 'u' :: 'e' :: r => some (Json.bool true, r)
                     | _ => none)
                 else if c = 'f' then
                    (match t ++ rest with
                     | 'a' :: 'l' :: 's' :: 'e' :: r => some (Json.bool false, r)
                     | _ => none)
                 else if c = '-' then (parseNumToken (t ++ rest)).map
                    fun p => (Json.num (-(p.1 : Int)), p.2)
                 else if c.isDigit then (parseNumToken (c :: (t ++ rest))).map
                    fun p => (Json.num (p.1 : Int), p.2)
                 else none) := rfl
            rw [List.cons_append, hstep, if_neg (char_ne_of_toNat (by omega)),
              if_neg (char_ne_of_toNat (by omega)),
              if_neg (char_ne_of_toNat (by omega)),
              if_neg (char_ne_of_toNat (by omega)),
              if_neg (char_ne_of_toNat (by omega)),
              if_neg (char_ne_of_toNat (by omega)),
              if_neg (char_ne_of_toNat (by omega)), if_pos hdig]
            have hback : c :: (t ++ rest) = natDigits i.toNat ++ rest := by
              rw [hnd]; rfl
            rw [hback, parseNumToken_natDigits _ _ hnum]
            have hival : ((i.toNat : Nat) : Int) = i := by omega
            show some (Json.num ((i.toNat : Nat) : Int), rest) =
              some (Json.num i, rest)
            rw [hival]
      | arr xs =>
        have harr : dumpsV (Json.arr xs) ++ rest =
            '[' :: (dumpsElems xs ++ ']' :: rest) := by simp [dumpsV]
        rw [harr]
        have hstep : parseVal (g + 1) ('[' :: (dumpsElems xs ++ ']' :: rest)) =
            parseElems g (skipWs (dumpsElems xs ++ ']' :: rest)) := rfl
        rw [hstep]
        have hsw : skipWs (dumpsElems xs ++ ']' :: rest) =
            dumpsElems xs ++ ']' :: rest := by
          cases xs with
          | nil =>
            show skipWs (']' :: rest) = ']' :: rest
            exact skipWs_cons_neg (by decide)
          | cons y ys =>
            rw [dumpsElems_cons_append]
            exact skipWs_dumpsV y _
        rw [hsw]
        refine ihQ xs rest ?_
        have : pSizeV (Json.arr xs) = 2 + pSizeL xs := rfl
        omega
      | obj fs =>
        have harr : dumpsV (Json.obj fs) ++ rest =
            '{' :: (dumpsFields fs ++ '}' :: rest) := by simp [dumpsV]
        rw [harr]
        have hstep : parseVal (g + 1) ('{' :: (dumpsFields fs ++ '}' :: rest)) =
            parseFields g (skipWs (dumpsFields fs ++ '}' :: rest)) := rfl
        rw [hstep]
        have hsw : skipWs (dumpsFields fs ++ '}' :: rest) =
            dumpsFields fs ++ '}' :: rest := by
          cases fs with
          | nil =>
            show skipWs ('}' :: rest) = '}' :: rest
            exact skipWs_cons_neg (by decide)
          | cons kv fs' =>
            obtain ⟨k, v⟩ := kv
            cases fs' <;>
              · show skipWs ('"' :: _) = _
                exact skipWs_cons_neg (by decide)
        rw [hsw]
        refine ihR fs rest ?_
        have : pSizeV (Json.obj fs) = 2 + pSizeF fs := rfl
        omega
    refine ⟨hP, ?_, ?_, ?_, ?_⟩
    · intro xs rest hs
      cases xs with
      | nil =>
        show parseElems (g + 1) (dumpsElems [] ++ ']' :: rest) = _
        rfl
      | cons x xs' =>
        obtain ⟨c, t, hct, hw, hrb, -⟩ := dumpsV_head x
        have hE : ∀ w, parseElems (g + 1) (c :: w) =
            if c = ']' then some (.arr [], w) else
              (match parseElems1 g (c :: w) with
               | some (vs, r) => some (.arr vs, r)
               | none => none) := fun w => rfl
        have key : ∀ w, parseElems1 g (c :: w) = some (x :: xs', rest) →
            dumpsElems (x :: xs') ++ ']' :: rest = c :: w →
            parseElems (g + 1) (dumpsElems (x :: xs') ++ ']' :: rest) =
              some (.arr (x :: xs'), rest) := by
          intro w h1 h2
          rw [h2, hE w, if_neg hrb, h1]
        cases xs' with
        | nil =>
          have harr : dumpsElems [x] ++ ']' :: rest = c :: (t ++ ']' :: rest) := by
            have h1 : dumpsElems [x] = dumpsV x := rfl
            rw [h1, hct, List.cons_append]
          refine key (t ++ ']' :: rest) ?_ harr
          rw [← List.cons_append, ← hct]
          have h1 : dumpsV x ++ ']' :: rest = dumpsElems [x] ++ ']' :: rest := rfl
          rw [h1]
          exact ihQ1 x [] rest (by omega)
        | cons z zs =>
          have harr : dumpsElems (x :: z :: zs) ++ ']' :: rest =
              c :: (t ++ (',' :: (dumpsElems (z :: zs) ++ ']' :: rest))) := by
            have h1 : dumpsElems (x :: z :: zs) =
                dumpsV x ++ ',' :: dumpsElems (z :: zs) := rfl
            rw [h1, hct]
            simp
          refine key _ ?_ harr
          rw [← List.cons_append, ← hct]
          have h1 : dumpsV x ++ (',' :: (dumpsElems (z :: zs) ++ ']' :: rest)) =
              dumpsElems (x :: z :: zs) ++ ']' :: rest := by
            have h2 : dumpsElems (x :: z :: zs) =
                dumpsV x ++ ',' :: dumpsElems (z :: zs) := rfl
            rw [h2]
            simp
          rw [h1]
          exact ihQ1 x (z :: zs) rest (by omega)
    · intro x xs rest hs
      have hsz : pSizeV x ≤ g ∧ pSizeL xs ≤ g := by
        simp only [pSizeL] at hs
        have := pSizeV_pos x
        cases xs with
        | nil => simp only [pSizeL]; omega
        | cons y ys =>
          simp only [pSizeL] at hs ⊢
          have := pSizeV_pos y
          omega
      cases xs with
      | nil =>
        have harr : dumpsElems [x] ++ ']' :: rest = dumpsV x ++ ']' :: rest := by
          simp [dumpsElems]
        rw [harr, hstepE1,
          ihP x (']' :: rest) hsz.1 (restSafe_any x rfl)]
        show (match skipWs (']' :: rest) with
          | ',' :: r' => (parseElems1 g (skipWs r')).bind
              (fun q => some (x :: q.1, q.2))
          | ']' :: r' => some ([x], r')
          | _ => none) = some ([x], rest)
        rw [skipWs_cons_neg (by decide)]
        rfl
      | cons y ys =>
        have harr : dumpsElems (x :: y :: ys) ++ ']' :: rest =
            dumpsV x ++ ',' :: (dumpsElems (y :: ys) ++ ']' :: rest) := by
          simp [dumpsElems]
        rw [harr, hstepE1,
          ihP x (',' :: (dumpsElems (y :: ys) ++ ']' :: rest)) hsz.1
            (restSafe_any x rfl)]
        show (match skipWs (',' :: (dumpsElems (y :: ys) ++ ']' :: rest)) with
          | ',' :: r' => (parseElems1 g (skipWs r')).bind
              (fun q => some (x :: q.1, q.2))
          | ']' :: r' => some ([x], r')
          | _ => none) = some (x :: y :: ys, rest)
        rw [skipWs_cons_neg (by decide)]
        show (parseElems1 g (skipWs (dumpsElems (y :: ys) ++ ']' :: rest))).bind
            (fun q => some (x :: q.1, q.2)) = some (x :: y :: ys, rest)
        have hsw : skipWs (dumpsElems (y :: ys) ++ ']' :: rest) =
            dumpsElems (y :: ys) ++ ']' :: rest := by
          rw [dumpsElems_cons_append]
          exact skipWs_dumpsV y _
        rw [hsw, ihQ1 y ys rest hsz.2]
        rfl
    · intro fs rest hs
      cases fs with
      | nil =>
        show parseFields (g + 1) (dumpsFields [] ++ '}' :: rest) = _
        rfl
      | cons kv fs' =>
        obtain ⟨k, v⟩ := kv
        have hstart : ∃ w, dumpsFields ((k, v) :: fs') ++ '}' :: rest = '"' :: w := by
          cases fs' with
          | nil =>
            exact ⟨escString k ++ '"' :: ':' :: (dumpsV v ++ '}' :: rest),
              by simp [dumpsFields]⟩
          | cons kv2 fs2 =>
            exact ⟨escString k ++ '"' :: ':' ::
              (dumpsV v ++ ',' :: (dumpsFields (kv2 :: fs2) ++ '}' :: rest)),
              by simp [dumpsFields]⟩
        obtain ⟨w, hw⟩ := hstart
        rw [hw]
        have hstep : parseFields (g + 1) ('"' :: w) =
            (match parseFields1 g ('"' :: w) with
             | some (fsv, r) => some (.obj fsv, r)
             | none => none) := by
          have hne : ('"' : Char) ≠ '}' := by decide
          show (if ('"' : Char) = '}' then some (Json.obj [], w) else
              (match parseFields1 g ('"' :: w) with
               | some (fsv, r) => some (.obj fsv, r)
               | none => none)) = _
          rw [if_neg hne]
        rw [hstep, ← hw, ihR1 (k, v) fs' rest (by omega)]
    · intro kv fs rest hs
      obtain ⟨k, v⟩ := kv
      have hsz : pSizeV v ≤ g ∧ (∀ kv2 fs2, fs = kv2 :: fs2 → pSizeF fs ≤ g) := by
        simp only [pSizeF] at hs
        constructor
        · omega
        · intro kv2 fs2 hf
          subst hf
          obtain ⟨k2, v2⟩ := kv2
          simp only [pSizeF] at hs ⊢
          have := pSizeV_pos v2
          omega
      cases fs with
      | nil =>
        have harr : dumpsFields [(k, v)] ++ '}' :: rest =
            '"' :: (escString k ++ '"' :: (':' :: (dumpsV v ++ '}' :: rest))) := by
          simp [dumpsFields]
        rw [harr, hstepF1, parseStringBody_escape]
        show (match skipWs (':' :: (dumpsV v ++ '}' :: rest)) with
          | ':' :: r3 => (parseVal g (skipWs r3)).bind (fun q =>
              match skipWs q.2 with
              | ',' :: r6 => (parseFields1 g (skipWs r6)).bind
                  (fun w => some ((k, q.1) :: w.1, w.2))
              | '}' :: r6 => some ([(k, q.1)], r6)
              | _ => none)
          | _ => none) = some ([(k, v)], rest)
        rw [skipWs_cons_neg (by decide)]
        show (parseVal g (skipWs (dumpsV v ++ '}' :: rest))).bind (fun q =>
            match skipWs q.2 with
            | ',' :: r6 => (parseFields1 g (skipWs r6)).bind
                (fun w => some ((k, q.1) :: w.1, w.2))
            | '}' :: r6 => some ([(k, q.1)], r6)
            | _ => none) = some ([(k, v)], rest)
        rw [skipWs_dumpsV, ihP v ('}' :: rest) hsz.1 (restSafe_any v rfl)]
        show (match skipWs ('}' :: rest) with
          | ',' :: r6 => (parseFields1 g (skipWs r6)).bind
              (fun w => some ((k, v) :: w.1, w.2))
          | '}' :: r6 => some ([(k, v)], r6)
          | _ => none) = some ([(k, v)], rest)
        rw [skipWs_cons_neg (by decide)]
        rfl
      | cons kv2 fs2 =>
        have harr : dumpsFields ((k, v) :: kv2 :: fs2) ++ '}' :: rest =
            '"' :: (escString k ++ '"' :: (':' :: (dumpsV v ++
              ',' :: (dumpsFields (kv2 :: fs2) ++ '}' :: rest)))) := by
          obtain ⟨k2, v2⟩ := kv2
          simp [dumpsFields]
        rw [harr, hstepF1, parseStringBody_escape]
        show (match skipWs (':' :: (dumpsV v ++
            ',' :: (dumpsFields (kv2 :: fs2) ++ '}' :: rest))) with
          | ':' :: r3 => (parseVal g (skipWs r3)).bind (fun q =>
              match skipWs q.2 with
              | ',' :: r6 => (parseFields1 g (skipWs r6)).bind
                  (fun w => some ((k, q.1) :: w.1, w.2))
              | '}' :: r6 => some ([(k, q.1)], r6)
              | _ => none)
          | _ => none) = some ((k, v) :: kv2 :: fs2, rest)
        rw [skipWs_cons_neg (by decide)]
        show (parseVal g (skipWs (dumpsV v ++
            ',' :: (dumpsFields (kv2 :: fs2) ++ '}' :: rest)))).bind (fun q =>
            match skipWs q.2 with
            | ',' :: r6 => (parseFields1 g (skipWs r6)).bind
                (fun w => some ((k, q.1) :: w.1, w.2))
            | '}' :: r6 => some ([(k, q.1)], r6)
            | _ => none) = some ((k, v) :: kv2 :: fs2, rest)
        rw [skipWs_dumpsV,
          ihP v (',' :: (dumpsFields (kv2 :: fs2) ++ '}' :: rest)) hsz.1
            (restSafe_any v rfl)]
        show (match skipWs (',' :: (dumpsFields (kv2 :: fs2) ++ '}' :: rest)) with
          | ',' :: r6 => (parseFields1 g (skipWs r6)).bind
              (fun w => some ((k, v) :: w.1, w.2))
          | '}' :: r6 => some ([(k, v)], r6)
          | _ => none) = some ((k, v) :: kv2 :: fs2, rest)
        rw [skipWs_cons_neg (by decide)]
        show (parseFields1 g (skipWs (dumpsFields (kv2 :: fs2) ++ '}' :: rest))).bind
            (fun w => some ((k, v) :: w.1, w.2)) = some ((k, v) :: kv2 :: fs2, rest)
        rw [skipWs_dumpsFields_cons, ihR1 kv2 fs2 rest (hsz.2 kv2 fs2 rfl)]
        rfl

/-! ## The default fuel of loads covers every serialized value -/

theorem pSizeL_le (xs : List Json)
    (h : ∀ x ∈ xs, pSizeV x ≤ 3 * (dumpsV x).length) :
    pSizeL xs ≤ 3 * (dumpsElems xs).length + 1 := by
  induction xs with
  | nil => simp [pSizeL]
  | cons x xs ih =>
    have hx := h x (List.mem_cons_self _ _)
    cases xs with
    | nil =>
      have h1 : dumpsElems [x] = dumpsV x := rfl
      simp only [pSizeL, h1]
      omega
    | cons y ys =>
      have ih' := ih (fun z hz => h z (List.mem_cons_of_mem _ hz))
      have h1 : dumpsElems (x :: y :: ys) = dumpsV x ++ ',' :: dumpsElems (y :: ys) := rfl
      simp only [pSizeL] at ih' ⊢
      rw [h1]
      simp only [List.length_append, List.length_cons]
      omega

theorem pSizeF_le (fs : List (List Char × Json))
    (h : ∀ kv ∈ fs, pSizeV kv.2 ≤ 3 * (dumpsV kv.2).length) :
    pSizeF fs ≤ 3 * (dumpsFields fs).length + 1 := by
  induction fs with
  | nil => simp [pSizeF]
  | cons kv fs ih =>
    obtain ⟨k, v⟩ := kv
    have hx : pSizeV v ≤ 3 * (dumpsV v).length := h (k, v) (List.mem_cons_self _ _)
    cases fs with
    | nil =>
      have h1 : dumpsFields [(k, v)] = '"' :: escString k ++ '"' :: ':' :: dumpsV v := rfl
      simp only [pSizeF, h1]
      simp only [List.length_cons, List.length_append]
      omega
    | cons kv2 fs2 =>
      have ih' := ih (fun z hz => h z (List.mem_cons_of_mem _ hz))
      have h1 : dumpsFields ((k, v) :: kv2 :: fs2) =
          ('"' :: escString k ++ '"' :: ':' :: dumpsV v) ++
            ',' :: dumpsFields (kv2 :: fs2) := rfl
      simp only [pSizeF] at ih' ⊢
      rw [h1]
      simp only [List.length_append, List.length_cons]
      omega

theorem pSize_le_dumps : ∀ n (v : Json), sizeOf v ≤ n →
    pSizeV v ≤ 3 * (dumpsV v).length := by
  intro n
  induction n with
  | zero =>
    intro v h
    cases v <;> simp at h
  | succ m ih =>
    intro v hv
    cases v with
    | null => simp [pSizeV, dumpsV]
    | bool b => cases b <;> simp [pSizeV, dumpsV]
    | num i =>
      have h1 : (dumpsV (Json.num i)).length ≥ 1 := by
        show (intChars i).length ≥ 1
        rw [intChars]
        by_cases hneg : i < 0
        · rw [if_pos hneg]; simp
        · rw [if_neg hneg]
          have := natDigits_ne_nil i.toNat
          cases hd : natDigits i.toNat with
          | nil => exact absurd hd this
          | cons c t => simp
      have h2 : pSizeV (Json.num i) = 1 := rfl
      omega
    | str s =>
      have h1 : dumpsV (Json.str s) = '"' :: escString s ++ ['"'] := rfl
      have h2 : pSizeV (Json.str s) = 1 := rfl
      rw [h1, h2]
      simp only [List.cons_append, List.length_cons, List.length_append]
      omega
    | arr xs =>
      have hB : pSizeL xs ≤ 3 * (dumpsElems xs).length + 1 := by
        refine pSizeL_le xs (fun x hx => ih x ?_)
        have h1 := List.sizeOf_lt_of_mem hx
        have h2 : sizeOf (Json.arr xs) = 1 + sizeOf xs := by simp
        omega
      have h1 : dumpsV (Json.arr xs) = '[' :: dumpsElems xs ++ [']'] := rfl
      have h2 : pSizeV (Json.arr xs) = 2 + pSizeL xs := rfl
      rw [h1, h2]
      simp only [List.cons_append, List.length_cons, List.length_append]
      omega
    | obj fs =>
      have hB : pSizeF fs ≤ 3 * (dumpsFields fs).length + 1 := by
        refine pSizeF_le fs (fun kv hkv => ih kv.2 ?_)
        have h1 := List.sizeOf_lt_of_mem hkv
        have h2 : sizeOf (Json.obj fs) = 1 + sizeOf fs := by simp
        obtain ⟨k, v⟩ := kv
        have h3 : sizeOf ((k, v) : List Char × Json) = 1 + sizeOf k + sizeOf v := by simp
        simp only at h1 h3 ⊢
        omega
      have h1 : dumpsV (Json.obj fs) = '{' :: dumpsFields fs ++ ['}'] := rfl
      have h2 : pSizeV (Json.obj fs) = 2 + pSizeF fs := rfl
      rw [h1, h2]
      simp only [List.cons_append, List.length_cons, List.length_append]
      omega

/-- json.loads undoes the serializer: the round trip at the heart of the
spec's idempotence property. -/
theorem loads_dumps (v : Json) : loads (dumpsV v) = some v := by
  have h1 : skipWs (dumpsV v) = dumpsV v := by
    have h := skipWs_dumpsV v []
    simpa using h
  have h2 : parseVal (3 * (dumpsV v).length + 1) (dumpsV v ++ []) = some (v, []) := by
    refine (parse_dumps _).1 v [] ?_ (restSafe_any v rfl)
    have := pSize_le_dumps (sizeOf v) v (le_refl _)
    omega
  rw [List.append_nil] at h2
  show (match parseVal (3 * (dumpsV v).length + 1) (skipWs (dumpsV v)) with
    | some (w, rest) => if skipWs rest = [] then some w else none
    | none => none) = some v
  rw [h1, h2]
  rfl

/-! ## Brace depth of serialized values -/

theorem braceDelta_nil : braceDelta [] = 0 := rfl

theorem braceDelta_cons (c : Char) (r : List Char) :
    braceDelta (c :: r) = braceD c + braceDelta r := by
  simp [braceDelta]

theorem braceDelta_append (a b : List Char) :
    braceDelta (a ++ b) = braceDelta a + braceDelta b := by
  simp [braceDelta]

theorem posAll_append {a b : List Char} : ∀ {d : Int}, posAll d a = true →
    posAll (d + braceDelta a) b = true → posAll d (a ++ b) = true := by
  induction a with
  | nil =>
    intro d _ h2
    rw [braceDelta_nil, add_zero] at h2
    simpa using h2
  | cons c t ih =>
    intro d h1 h2
    rw [posAll, Bool.and_eq_true] at h1
    show posAll d (c :: (t ++ b)) = true
    rw [posAll, Bool.and_eq_true]
    refine ⟨h1.1, ih h1.2 ?_⟩
    rw [braceDelta_cons, ← add_assoc] at h2
    exact h2

theorem posAll_no_brace {l : List Char} {d : Int} (hd : 1 ≤ d)
    (h : ∀ c ∈ l, braceD c = 0) : posAll d l = true := by
  induction l with
  | nil => rfl
  | cons c t ih =>
    rw [posAll, Bool.and_eq_true]
    rw [h c (List.mem_cons_self _ _), add_zero]
    exact ⟨by simpa using hd, ih (fun x hx => h x (List.mem_cons_of_mem _ hx))⟩

theorem braceD_eq_zero {c : Char} (h : c.toNat ≠ 123 ∧ c.toNat ≠ 125) :
    braceD c = 0 := by
  have b1 : ('{' : Char).toNat = 123 := rfl
  have b2 : ('}' : Char).toNat = 125 := rfl
  rw [braceD, if_neg (char_ne_of_toNat (by omega)),
    if_neg (char_ne_of_toNat (by omega))]

theorem hexDigit_no_brace {k : Nat} (h : k < 16) : braceD (hexDigit k) = 0 := by
  by_cases h10 : k < 10
  · have ht : (hexDigit k).toNat = 48 + k := by
      rw [hexDigit, if_pos h10]
      exact toNat_ofNat_valid (by omega)
    exact braceD_eq_zero (by rw [ht]; omega)
  · have ht : (hexDigit k).toNat = 87 + k := by
      rw [hexDigit, if_neg h10]
      exact toNat_ofNat_valid (by omega)
    exact braceD_eq_zero (by rw [ht]; omega)

theorem escChar_delta (c : Char) : braceDelta (escChar c) = braceD c := by
  rw [escChar]
  by_cases h1 : c = '"'
  · subst h1; rfl
  · by_cases h2 : c = '\\'
    · subst h2; rfl
    · by_cases h3 : c.toNat < 32
      · rw [if_neg h1, if_neg h2, if_pos h3]
        have hb : braceD c = 0 := braceD_eq_zero (by omega)
        rw [hb]
        simp only [braceDelta, List.map_cons, List.map_nil, List.sum_cons, List.sum_nil]
        rw [hexDigit_no_brace (by omega), hexDigit_no_brace (Nat.mod_lt _ (by omega))]
        rfl
      · rw [if_neg h1, if_neg h2, if_neg h3]
        simp [braceDelta]

theorem escChar_posAll {c : Char} {d acc : Int} (hd : 1 ≤ d) (hacc : 0 ≤ acc)
    (hstep : 0 ≤ acc + braceD c) : posAll (d + acc) (escChar c) = true := by
  rw [escChar]
  by_cases h1 : c = '"'
  · subst h1
    exact posAll_no_brace (by omega) (by decide)
  · by_cases h2 : c = '\\'
    · subst h2
      exact posAll_no_brace (by omega) (by decide)
    · by_cases h3 : c.toNat < 32
      · rw [if_neg h1, if_neg h2, if_pos h3]
        refine posAll_no_brace (by omega) ?_
        intro x hx
        simp only [List.mem_cons, List.not_mem_nil, or_false] at hx
        rcases hx with hx | hx | hx | hx | hx | hx
        · subst hx; rfl
        · subst hx; rfl
        · subst hx; rfl
        · subst hx; rfl
        · subst hx; exact hexDigit_no_brace (by omega)
        · subst hx; exact hexDigit_no_brace (Nat.mod_lt _ (by omega))
      · rw [if_neg h1, if_neg h2, if_neg h3]
        rw [posAll, Bool.and_eq_true]
        refine ⟨?_, rfl⟩
        simp only [decide_eq_true_eq]
        omega

theorem escString_delta (s : List Char) :
    braceDelta (escString s) = braceDelta s := by
  induction s with
  | nil => rfl
  | cons c t ih =>
    have h1 : escString (c :: t) = escChar c ++ escString t := by simp [escString]
    rw [h1, braceDelta_append, escChar_delta, ih, braceDelta_cons]

theorem escString_posAll : ∀ (s : List Char) (d acc : Int), 1 ≤ d → 0 ≤ acc →
    nnFrom acc s = true → posAll (d + acc) (escString s) = true := by
  intro s
  induction s with
  | nil => intro d acc _ _ _; rfl
  | cons c t ih =>
    intro d acc hd hacc hnn
    rw [nnFrom, Bool.and_eq_true, decide_eq_true_eq] at hnn
    have h1 : escString (c :: t) = escChar c ++ escString t := by simp [escString]
    rw [h1]
    refine posAll_append (escChar_posAll hd hacc hnn.1) ?_
    rw [escChar_delta, add_assoc]
    exact ih d (acc + braceD c) hd hnn.1 hnn.2

theorem stringsOkE_mem {xs : List Json} {x : Json} (hx : x ∈ xs)
    (h : stringsOkE xs = true) : stringsOkV x = true := by
  induction xs with
  | nil => cases hx
  | cons y ys ih =>
    rw [stringsOkE, Bool.and_eq_true] at h
    rcases List.mem_cons.mp hx with hx | hx
    · subst hx; exact h.1
    · exact ih hx h.2

theorem stringsOkF_mem {fs : List (List Char × Json)} {kv : List Char × Json}
    (hkv : kv ∈ fs) (h : stringsOkF fs = true) :
    dyck kv.1 = true ∧ stringsOkV kv.2 = true := by
  induction fs with
  | nil => cases hkv
  | cons kv2 fs2 ih =>
    obtain ⟨k2, v2⟩ := kv2
    rw [stringsOkF, Bool.and_eq_true, Bool.and_eq_true] at h
    rcases List.mem_cons.mp hkv with hx | hx
    · subst hx; exact ⟨h.1.1, h.1.2⟩
    · exact ih hx h.2

theorem dumpsStr_brace {s : List Char} (hs : dyck s = true) :
    braceDelta ('"' :: escString s ++ ['"']) = 0 ∧
    ∀ d : Int, 1 ≤ d → posAll d ('"' :: escString s ++ ['"']) = true := by
  rw [dyck, Bool.and_eq_true, decide_eq_true_eq] at hs
  constructor
  · rw [List.cons_append, braceDelta_cons, braceDelta_append, escString_delta,
      hs.2]
    rfl
  · intro d hd
    rw [List.cons_append, posAll, Bool.and_eq_true]
    rw [show braceD '"' = 0 from rfl, add_zero]
    refine ⟨by simpa using hd, ?_⟩
    refine posAll_append ?_ ?_
    · have := escString_posAll s d 0 hd (le_refl 0) hs.1
      simpa using this
    · rw [escString_delta, hs.2, add_zero]
      exact posAll_no_brace hd (by decide)

theorem dumpsElems_brace {xs : List Json}
    (hmem : ∀ x ∈ xs, braceDelta (dumpsV x) = 0 ∧
      ∀ d : Int, 1 ≤ d → posAll d (dumpsV x) = true) :
    braceDelta (dumpsElems xs) = 0 ∧
    ∀ d : Int, 1 ≤ d → posAll d (dumpsElems xs) = true := by
  induction xs with
  | nil => exact ⟨rfl, fun d hd => rfl⟩
  | cons y ys ih =>
    have hy := hmem y (List.mem_cons_self _ _)
    cases ys with
    | nil => exact hy
    | cons z zs =>
      have ih' := ih (fun x hx => hmem x (List.mem_cons_of_mem _ hx))
      have h1 : dumpsElems (y :: z :: zs) =
          dumpsV y ++ ',' :: dumpsElems (z :: zs) := rfl
      constructor
      · rw [h1, braceDelta_append, braceDelta_cons, hy.1, ih'.1]
        rfl
      · intro d hd
        rw [h1]
        refine posAll_append (hy.2 d hd) ?_
        rw [hy.1, add_zero, posAll, Bool.and_eq_true,
          show braceD ',' = 0 from rfl, add_zero]
        exact ⟨by simpa using hd, ih'.2 d hd⟩

theorem dumpsFields_brace {fs : List (List Char × Json)}
    (hmem : ∀ kv ∈ fs, dyck kv.1 = true ∧ braceDelta (dumpsV kv.2) = 0 ∧
      ∀ d : Int, 1 ≤ d → posAll d (dumpsV kv.2) = true) :
    braceDelta (dumpsFields fs) = 0 ∧
    ∀ d : Int, 1 ≤ d → posAll d (dumpsFields fs) = true := by
  induction fs with
  | nil => exact ⟨rfl, fun d hd => rfl⟩
  | cons kv fs2 ih =>
    obtain ⟨k, v⟩ := kv
    have hkv := hmem (k, v) (List.mem_cons_self _ _)
    have hdk : braceDelta k = 0 := by
      have := hkv.1
      rw [dyck, Bool.and_eq_true, decide_eq_true_eq] at this
      exact this.2
    have hnn : nnFrom 0 k = true := by
      have := hkv.1
      rw [dyck, Bool.and_eq_true] at this
      exact this.1
    have hone : braceDelta ('"' :: escString k ++ '"' :: ':' :: dumpsV v) = 0 ∧
        ∀ d : Int, 1 ≤ d →
          posAll d ('"' :: escString k ++ '"' :: ':' :: dumpsV v) = true := by
      constructor
      · rw [List.cons_append, braceDelta_cons, braceDelta_append,
          escString_delta, hdk, braceDelta_cons, braceDelta_cons, hkv.2.1]
        rfl
      · intro d hd
        rw [List.cons_append, posAll, Bool.and_eq_true,
          show braceD '"' = 0 from rfl, add_zero]
        refine ⟨by simpa using hd, ?_⟩
        refine posAll_append ?_ ?_
        · have := escString_posAll k d 0 hd (le_refl 0) hnn
          simpa using this
        · rw [escString_delta, hdk, add_zero, posAll, Bool.and_eq_true,
            show braceD '"' = 0 from rfl, add_zero]
          refine ⟨by simpa using hd, ?_⟩
          rw [posAll, Bool.and_eq_true, show braceD ':' = 0 from rfl, add_zero]
          exact ⟨by simpa using hd, hkv.2.2 d hd⟩
    cases fs2 with
    | nil => exact hone
    | cons kv2 fs3 =>
      have ih' := ih (fun x hx => hmem x (List.mem_cons_of_mem _ hx))
      have h1 : dumpsFields ((k, v) :: kv2 :: fs3) =
          ('"' :: escString k ++ '"' :: ':' :: dumpsV v) ++
            ',' :: dumpsFields (kv2 :: fs3) := rfl
      constructor
      · rw [h1, braceDelta_append, braceDelta_cons, hone.1, ih'.1]
        rfl
      · intro d hd
        rw [h1]
        refine posAll_append (hone.2 d hd) ?_
        rw [hone.1, add_zero, posAll, Bool.and_eq_true,
          show braceD ',' = 0 from rfl, add_zero]
        exact ⟨by simpa using hd, ih'.2 d hd⟩

/-- Dyck-balanced string literals give each serialized piece a zero total
brace delta and an everywhere-positive running depth from any positive
start. -/
theorem dumps_brace : ∀ n (v : Json), sizeOf v ≤ n → stringsOkV v = true →
    braceDelta (dumpsV v) = 0 ∧ ∀ d : Int, 1 ≤ d → posAll d (dumpsV v) = true := by
  intro n
  induction n with
  | zero =>
    intro v h
    cases v <;> simp at h
  | succ m ih =>
    intro v hv hok
    cases v with
    | null => exact ⟨rfl, fun d hd => posAll_no_brace hd (by decide)⟩
    | bool b =>
      cases b <;> exact ⟨rfl, fun d hd => posAll_no_brace hd (by decide)⟩
    | num i =>
      have hnb : ∀ x ∈ dumpsV (Json.num i), braceD x = 0 := by
        intro x hx
        have h0 : dumpsV (Json.num i) = intChars i := rfl
        rw [h0, intChars] at hx
        by_cases hneg : i < 0
        · rw [if_pos hneg] at hx
          rcases List.mem_cons.mp hx with hx | hx
          · subst hx; rfl
          · have hdig := natDigits_all_digits i.natAbs x hx
            obtain ⟨hl, hr⟩ := digit_toNat hdig
            exact braceD_eq_zero (by omega)
        · rw [if_neg hneg] at hx
          have hdig := natDigits_all_digits i.toNat x hx
          obtain ⟨hl, hr⟩ := digit_toNat hdig
          exact braceD_eq_zero (by omega)
      constructor
      · have hz : ∀ l : List Char, (∀ x ∈ l, braceD x = 0) → braceDelta l = 0 := by
          intro l
          induction l with
          | nil => intro _; rfl
          | cons c t iht =>
            intro hl
            rw [braceDelta_cons, hl c (List.mem_cons_self _ _),
              iht (fun x hx => hl x (List.mem_cons_of_mem _ hx))]
            rfl
        exact hz _ hnb
      · exact fun d hd => posAll_no_brace hd hnb
    | str s => exact dumpsStr_brace hok
    | arr xs =>
      have hE := @dumpsElems_brace xs (fun x hx => by
        have h1 := List.sizeOf_lt_of_mem hx
        have h2 : sizeOf (Json.arr xs) = 1 + sizeOf xs := by simp
        exact ih x (by omega) (stringsOkE_mem hx hok))
      constructor
      · rw [show dumpsV (Json.arr xs) = '[' :: dumpsElems xs ++ [']'] from rfl,
          List.cons_append, braceDelta_cons, braceDelta_append, hE.1]
        rfl
      · intro d hd
        rw [show dumpsV (Json.arr xs) = '[' :: dumpsElems xs ++ [']'] from rfl,
          List.cons_append, posAll, Bool.and_eq_true,
          show braceD '[' = 0 from rfl, add_zero]
        refine ⟨by simpa using hd, posAll_append (hE.2 d hd) ?_⟩
        rw [hE.1, add_zero]
        exact posAll_no_brace hd (by decide)
    | obj fs =>
      have hF := @dumpsFields_brace fs (fun kv hkv => by
        have h1 := List.sizeOf_lt_of_mem hkv
        have h2 : sizeOf (Json.obj fs) = 1 + sizeOf fs := by simp
        obtain ⟨k, w⟩ := kv
        have h3 : sizeOf ((k, w) : List Char × Json) = 1 + sizeOf k + sizeOf w := by
          simp
        have hm := stringsOkF_mem hkv hok
        refine ⟨hm.1, ?_, ?_⟩
        · exact (ih w (by omega) hm.2).1
        · exact (ih w (by omega) hm.2).2)
      constructor
      · rw [show dumpsV (Json.obj fs) = '{' :: dumpsFields fs ++ ['}'] from rfl,
          List.cons_append, braceDelta_cons, braceDelta_append, hF.1]
        rfl
      · intro d hd
        rw [show dumpsV (Json.obj fs) = '{' :: dumpsFields fs ++ ['}'] from rfl,
          List.cons_append, posAll, Bool.and_eq_true,
          show braceD '{' = 1 from rfl]
        refine ⟨by simp only [decide_eq_true_eq]; omega,
          posAll_append (hF.2 (d + 1) (by omega)) ?_⟩
        rw [hF.1, add_zero, posAll, Bool.and_eq_true,
          show braceD '}' = -1 from rfl]
        exact ⟨by simp only [decide_eq_true_eq]; omega, rfl⟩

/-! ## The brace scan consumes everything while depth stays nonzero -/

theorem posAll_neverZero {s : List Char} : ∀ {d : Int}, posAll d s = true →
    neverZero d s = true := by
  induction s with
  | nil => intro d _; rfl
  | cons c t ih =>
    intro d h
    rw [posAll, Bool.and_eq_true, decide_eq_true_eq] at h
    rw [neverZero, Bool.and_eq_true, decide_eq_true_eq]
    exact ⟨by omega, ih h.2⟩

theorem braceScan_neverZero {s : List Char} : ∀ {d : Int}, neverZero d s = true →
    braceScan d s = s := by
  induction s with
  | nil => intro d _; rfl
  | cons c t ih =>
    intro d h
    rw [neverZero, Bool.and_eq_true, decide_eq_true_eq] at h
    show c :: (if d + braceD c = 0 then [] else braceScan (d + braceD c) t) = c :: t
    rw [if_neg h.1, ih h.2]

theorem braceScan_append_single {a : List Char} (c : Char) : ∀ {d : Int},
    neverZero d a = true → braceScan d (a ++ [c]) = a ++ [c] := by
  induction a with
  | nil =>
    intro d _
    show c :: (if d + braceD c = 0 then [] else braceScan (d + braceD c) []) = [c]
    by_cases h : d + braceD c = 0
    · rw [if_pos h]
    · rw [if_neg h]
      rfl
  | cons x t ih =>
    intro d h
    rw [neverZero, Bool.and_eq_true, decide_eq_true_eq] at h
    show x :: (if d + braceD x = 0 then [] else braceScan (d + braceD x) (t ++ [c])) =
      x :: (t ++ [c])
    rw [if_neg h.1, ih h.2]

/-! ## Fence stripping is the identity on fence-free text -/

theorem hasTriple_cons_false {c1 c2 c3 : Char} {rest : List Char}
    (h : hasTriple (c1 :: c2 :: c3 :: rest) = false) :
    (c1 = btick && c2 = btick && c3 = btick) = false ∧
      hasTriple (c2 :: c3 :: rest) = false := by
  rw [hasTriple, Bool.or_eq_false_iff] at h
  exact h

theorem reSubFenceAux_id : ∀ fuel s, hasTriple s = false → reSubFenceAux fuel s = s := by
  intro fuel
  induction fuel with
  | zero => intro s _; rfl
  | succ g ih =>
    intro s h
    match s with
    | [] => rfl
    | [c] => rfl
    | [c, c2] => rfl
    | c1 :: c2 :: c3 :: rest =>
      obtain ⟨hcond, htail⟩ := hasTriple_cons_false h
      show (if c1 = btick && c2 = btick && c3 = btick then
          reSubFenceAux g (rest.dropWhile isAsciiLetterCh)
        else c1 :: reSubFenceAux g (c2 :: c3 :: rest)) = _
      rw [if_neg (by rw [hcond]; exact Bool.false_ne_true), ih _ htail]

theorem removeTripleAux_id : ∀ fuel s, hasTriple s = false →
    removeTripleAux fuel s = s := by
  intro fuel
  induction fuel with
  | zero => intro s _; rfl
  | succ g ih =>
    intro s h
    match s with
    | [] => rfl
    | [c] => rfl
    | [c, c2] => rfl
    | c1 :: c2 :: c3 :: rest =>
      obtain ⟨hcond, htail⟩ := hasTriple_cons_false h
      show (if c1 = btick && c2 = btick && c3 = btick then removeTripleAux g rest
        else c1 :: removeTripleAux g (c2 :: c3 :: rest)) = _
      rw [if_neg (by rw [hcond]; exact Bool.false_ne_true), ih _ htail]

theorem pyStrip_id {s : List Char} {c1 c2 : Char} {mid : List Char}
    (hs : s = c1 :: (mid ++ [c2])) (h1 : isPyWs c1 = false)
    (h2 : isPyWs c2 = false) : pyStrip s = s := by
  have hd : s.dropWhile isPyWs = s := by
    rw [hs]
    exact dropWhile_cons_neg h1
  have hrev : s.reverse = c2 :: (mid.reverse ++ [c1]) := by
    rw [hs]
    simp
  have hd2 : s.reverse.dropWhile isPyWs = s.reverse := by
    rw [hrev]
    exact dropWhile_cons_neg h2
  show ((s.dropWhile isPyWs).reverse.dropWhile isPyWs).reverse = s
  rw [hd, hd2, List.reverse_reverse]

theorem strip_code_fences_obj (fs : List (List Char × Json))
    (h : hasTriple (dumpsV (Json.obj fs)) = false) :
    strip_code_fences (dumpsV (Json.obj fs)) = dumpsV (Json.obj fs) := by
  show pyStrip (removeTriple (reSubFence (dumpsV (Json.obj fs)))) = _
  rw [show reSubFence (dumpsV (Json.obj fs)) =
      reSubFenceAux (dumpsV (Json.obj fs)).length (dumpsV (Json.obj fs)) from rfl,
    reSubFenceAux_id _ _ h,
    show removeTriple (dumpsV (Json.obj fs)) =
      removeTripleAux (dumpsV (Json.obj fs)).length (dumpsV (Json.obj fs)) from rfl,
    removeTripleAux_id _ _ h]
  exact pyStrip_id
    (show dumpsV (Json.obj fs) = '{' :: (dumpsFields fs ++ ['}']) by simp [dumpsV])
    (by decide) (by decide)

/-! ## Extraction round trip on serialized objects -/

theorem extract_dumps_obj (fs : List (List Char × Json))
    (hok : stringsOkF fs = true)
    (hbt : hasTriple (dumpsV (Json.obj fs)) = false) :
    extract_first_json (dumpsV (Json.obj fs)) = .ok (Json.obj fs) := by
  have hF := @dumpsFields_brace fs (fun kv hkv => by
    have hm := stringsOkF_mem hkv hok
    exact ⟨hm.1, (dumps_brace (sizeOf kv.2) kv.2 (le_refl _) hm.2).1,
      (dumps_brace (sizeOf kv.2) kv.2 (le_refl _) hm.2).2⟩)
  have hshape : dumpsV (Json.obj fs) = '{' :: (dumpsFields fs ++ ['}']) := by
    simp [dumpsV]
  have hext : extract_first_json (dumpsV (Json.obj fs)) =
      (match (strip_code_fences (dumpsV (Json.obj fs))).dropWhile
          (fun c => c ≠ '{') with
        | [] => Except.error noJsonMsg
        | tl =>
          match loads (braceScan 0 tl) with
          | some v => Except.ok v
          | none => Except.error parseFailMsg) := rfl
  rw [strip_code_fences_obj fs hbt] at hext
  have hdw : (dumpsV (Json.obj fs)).dropWhile (fun c => c ≠ '{') =
      dumpsV (Json.obj fs) := by
    rw [hshape]
    exact dropWhile_cons_neg (by decide)
  rw [hdw] at hext
  have hscan : braceScan 0 (dumpsV (Json.obj fs)) = dumpsV (Json.obj fs) := by
    rw [hshape]
    show '{' :: (if (0 : Int) + braceD '{' = 0 then []
        else braceScan ((0 : Int) + braceD '{') (dumpsFields fs ++ ['}'])) = _
    rw [if_neg (by decide)]
    have hnz : neverZero ((0 : Int) + braceD '{') (dumpsFields fs) = true := by
      have h1 : ((0 : Int) + braceD '{') = 1 := by decide
      rw [h1]
      exact posAll_neverZero (hF.2 1 (le_refl 1))
    rw [braceScan_append_single '}' hnz]
  rw [hext, hshape]
  show (match loads (braceScan 0 ('{' :: (dumpsFields fs ++ ['}']))) with
    | some v => Except.ok v
    | none => Except.error parseFailMsg) = Except.ok (Json.obj fs)
  rw [← hshape, hscan, loads_dumps]

theorem dropWhile_head_not {p : Char → Bool} {l : List Char} {c : Char}
    {t : List Char} (h : l.dropWhile p = c :: t) : p c = false ∧ c ∈ l := by
  induction l with
  | nil => cases h
  | cons a as ih =>
    rw [List.dropWhile_cons] at h
    by_cases hp : p a = true
    · rw [if_pos hp] at h
      obtain ⟨h1, h2⟩ := ih h
      exact ⟨h1, List.mem_cons_of_mem _ h2⟩
    · rw [if_neg hp] at h
      cases h
      exact ⟨by simpa using hp, List.mem_cons_self _ _⟩

/-! ## Claim theorems for the response extractor -/

/-- Claim C1 (amended): for every JSON object value whose string literals
(keys and values) have Dyck-balanced braces AND whose serialization contains
no run of three backticks, extract_first_json applied to the serialization
returns the value itself; moreover the extractor tolerates surrounding
markdown fences and trailing prose on the concrete example of the spec. -/
theorem c1_extract_roundtrip_amended :
    (∀ fs : List (List Char × Json), stringsOkF fs = true →
      hasTriple (dumpsV (Json.obj fs)) = false →
      extract_first_json (dumpsV (Json.obj fs)) = .ok (Json.obj fs)) ∧
    extract_first_json ("```json\n\x7b\"a\":1\x7d\n``` thanks!".toList) =
      .ok (Json.obj [("a".toList, Json.num 1)]) := by
  constructor
  · intro fs hok hbt
    exact extract_dumps_obj fs hok hbt
  · rfl

/-- Claim C1, witness: the amended round trip evaluated on a concrete
one-field object. -/
theorem c1_extract_roundtrip_witness :
    extract_first_json (dumpsV (Json.obj [("a".toList, Json.num 1)])) =
      .ok (Json.obj [("a".toList, Json.num 1)]) :=
  c1_extract_roundtrip_amended.1 [("a".toList, Json.num 1)] (by decide) (by decide)

/-- Claim C1, counterexample to the original statement: the object mapping
"a" to the string of three backticks has no braces at all inside string
values, yet extraction of its serialization returns a different object,
because strip_code_fences also rewrites backticks inside JSON string
literals. -/
theorem c1_extract_roundtrip_counterexample :
    stringsOkF [("a".toList, Json.str [btick, btick, btick])] = true ∧
    extract_first_json
      (dumpsV (Json.obj [("a".toList, Json.str [btick, btick, btick])])) =
      .ok (Json.obj [("a".toList, Json.str [])]) ∧
    Json.obj [("a".toList, Json.str [])] ≠
      Json.obj [("a".toList, Json.str [btick, btick, btick])] := by
  refine ⟨by decide, rfl, ?_⟩
  intro h
  injection h with h1
  injection h1 with h2 h3
  injection h2 with h4 h5
  injection h5 with h6
  cases h6

/-- Claim C2: extraction fails with the no-object error exactly when the
fence-stripped text contains no opening brace; and whenever the brace depth
counter never returns to zero over the suffix starting at the first brace,
the scan consumes that whole suffix and any failure is the parse error, not
a distinct unbalanced-brace error. -/
theorem c2_extraction_errors :
    (∀ t : List Char,
      extract_first_json t = .error noJsonMsg ↔ '{' ∉ strip_code_fences t) ∧
    (∀ t tl : List Char,
      tl = (strip_code_fences t).dropWhile (fun c => c ≠ '{') →
      tl ≠ [] → neverZero 0 tl = true →
      braceScan 0 tl = tl ∧
        ∀ e, extract_first_json t = .error e → e = parseFailMsg) := by
  have hne : noJsonMsg ≠ parseFailMsg := by decide
  have hext : ∀ t : List Char, extract_first_json t =
      (match (strip_code_fences t).dropWhile (fun c => c ≠ '{') with
        | [] => Except.error noJsonMsg
        | tl =>
          match loads (braceScan 0 tl) with
          | some v => Except.ok v
          | none => Except.error parseFailMsg) := fun t => rfl
  have hcons : ∀ (c : Char) (tl : List Char),
      (match c :: tl with
        | [] => Except.error noJsonMsg
        | w =>
          match loads (braceScan 0 w) with
          | some v => Except.ok v
          | none => Except.error parseFailMsg) =
      (match loads (braceScan 0 (c :: tl)) with
        | some v => (Except.ok v : Except String Json)
        | none => Except.error parseFailMsg) := fun c tl => rfl
  constructor
  · intro t
    rw [hext t]
    cases hdw : (strip_code_fences t).dropWhile (fun c => c ≠ '{') with
    | nil =>
      simp only [iff_true_intro rfl, true_iff]
      have hall := List.dropWhile_eq_nil_iff.mp hdw
      intro hmem
      have := hall '{' hmem
      simp at this
    | cons c tl =>
      obtain ⟨hc, hmem⟩ := dropWhile_head_not hdw
      rw [hcons c tl]
      constructor
      · intro hcontra
        cases hload : loads (braceScan 0 (c :: tl)) with
        | some v => rw [hload] at hcontra; cases hcontra
        | none =>
          rw [hload] at hcontra
          injection hcontra with hmsg
          exact absurd hmsg.symm hne
      · intro hnotmem
        have hc' : c = '{' := by simpa using hc
        subst hc'
        exact absurd hmem hnotmem
  · intro t tl htl hne' hz
    refine ⟨braceScan_neverZero hz, ?_⟩
    intro e he
    rw [hext t, ← htl] at he
    cases tl with
    | nil => exact absurd rfl hne'
    | cons c tl' =>
      rw [hcons c tl'] at he
      cases hload : loads (braceScan 0 (c :: tl')) with
      | some v => rw [hload] at he; cases he
      | none =>
        rw [hload] at he
        injection he with hmsg
        exact hmsg.symm

/-- Claim C2, witness: applied to the unbalanced input of a lone opening
brace followed by a key, the scan consumes to end of string and the failure
is the parse error; and the no-brace input yields the no-object error. -/
theorem c2_extraction_errors_witness :
    (braceScan 0 ("\x7b\"a\":1".toList) = "\x7b\"a\":1".toList ∧
      ∀ e, extract_first_json ("\x7b\"a\":1".toList) = .error e →
        e = parseFailMsg) ∧
    extract_first_json ("no object here".toList) = .error noJsonMsg := by
  constructor
  · exact c2_extraction_errors.2 ("\x7b\"a\":1".toList) ("\x7b\"a\":1".toList)
      (by decide) (by decide) (by decide)
  · exact (c2_extraction_errors.1 ("no object here".toList)).mpr (by decide)

/-! ## Stub analysis backends -/

theorem jIsStrArr_map_str (ps : List (List Char)) :
    jIsStrArr (Json.arr (ps.map Json.str)) = true := by
  show (ps.map Json.str).all jIsStr = true
  induction ps with
  | nil => rfl
  | cons p ps ih =>
    simp only [List.map_cons, List.all_cons, Bool.and_eq_true]
    exact ⟨rfl, ih⟩

theorem stubIssues_all_str (text : List Char) :
    (stubIssues text).all jIsStr = true := by
  rw [stubIssues]
  by_cases h1 : containsSub "checkout".toList (lowerStr text) = true
  · by_cases h2 : containsSub "config change".toList (lowerStr text) = true
    · rw [if_pos h1, if_pos h2]; rfl
    · rw [if_pos h1, if_neg h2]; rfl
  · by_cases h2 : containsSub "config change".toList (lowerStr text) = true
    · rw [if_neg h1, if_pos h2]; rfl
    · rw [if_neg h1, if_neg h2]; rfl

theorem stubIncidents_all_valid (text : List Char) :
    (stubIncidents text).all incidentValid = true := by
  rw [stubIncidents]
  by_cases h1 : containsSub "checkout".toList (lowerStr text) = true
  · by_cases h2 : containsSub "config change".toList (lowerStr text) = true
    · rw [if_pos h1, if_pos h2]; rfl
    · rw [if_pos h1, if_neg h2]; rfl
  · by_cases h2 : containsSub "config change".toList (lowerStr text) = true
    · rw [if_neg h1, if_pos h2]; rfl
    · rw [if_neg h1, if_neg h2]; rfl

/-- Claim C3: for every transcript text and environment, the stub metadata
and rollup builders produce output that satisfies the corresponding
(spec-modelled) schema, whatever keywords the text contains. -/
theorem c3_stub_schema_valid (text : List Char) (env : Environment) :
    metadataSchemaValid (build_metadata_stub text env) = true ∧
    rollupSchemaValid (build_rollup_stub text env) = true := by
  constructor
  · rw [metadataSchemaValid]
    simp only [Bool.and_eq_true]
    refine ⟨⟨⟨⟨⟨⟨rfl, ?_⟩, rfl⟩, ?_⟩, rfl⟩, rfl⟩, ?_⟩
    · show jIsStrArr (Json.arr ((stubParticipants text).map Json.str)) = true
      exact jIsStrArr_map_str _
    · show jIsStrOrNull (match reSearchTime text with
        | some t => Json.str (pyStrip t)
        | none => Json.null) = true
      cases reSearchTime text <;> rfl
    · show (stubIssues text).all jIsStr = true
      exact stubIssues_all_str text
  · rw [rollupSchemaValid]
    simp only [Bool.and_eq_true]
    refine ⟨⟨⟨rfl, ?_⟩, rfl⟩, rfl⟩
    show (stubIncidents text).all incidentValid = true
    exact stubIncidents_all_valid text

/-- Claim C4: a transcript containing checkout (case-insensitively) puts
Checkout API timeouts into the stub metadata issues; one containing config
change puts Recent config change there; and a transcript containing neither
keyword gives the stub rollup an empty incidents sequence. -/
theorem c4_stub_keywords (text : List Char) (env : Environment) :
    (containsSub "checkout".toList (lowerStr text) = true →
      jGet (build_metadata_stub text env) "issues".toList =
        some (Json.arr (stubIssues text)) ∧
      Json.str "Checkout API timeouts".toList ∈ stubIssues text) ∧
    (containsSub "config change".toList (lowerStr text) = true →
      jGet (build_metadata_stub text env) "issues".toList =
        some (Json.arr (stubIssues text)) ∧
      Json.str "Recent config change".toList ∈ stubIssues text) ∧
    (containsSub "checkout".toList (lowerStr text) = false →
      containsSub "config change".toList (lowerStr text) = false →
      jGet (build_rollup_stub text env) "incidents".toList =
        some (Json.arr [])) := by
  refine ⟨?_, ?_, ?_⟩
  · intro h
    refine ⟨rfl, ?_⟩
    rw [stubIssues, if_pos h]
    exact List.mem_append.mpr (Or.inl (List.mem_cons_self _ _))
  · intro h
    refine ⟨rfl, ?_⟩
    rw [stubIssues, if_pos h]
    exact List.mem_append.mpr (Or.inr (List.mem_cons_self _ _))
  · intro h1 h2
    have hinc : stubIncidents text = [] := by
      rw [stubIncidents, if_neg (by rw [h1]; exact Bool.false_ne_true),
        if_neg (by rw [h2]; exact Bool.false_ne_true)]
      rfl
    show some (Json.arr (stubIncidents text)) = some (Json.arr [])
    rw [hinc]

/-- Claim C4, witness: concrete transcripts exercising all three keyword
branches. -/
theorem c4_stub_keywords_witness :
    (jGet (build_metadata_stub "the checkout failed after a config change".toList
        defaultEnvironment) "issues".toList =
      some (Json.arr (stubIssues "the checkout failed after a config change".toList)) ∧
      Json.str "Checkout API timeouts".toList ∈
        stubIssues "the checkout failed after a config change".toList) ∧
    (Json.str "Recent config change".toList ∈
      stubIssues "the checkout failed after a config change".toList) ∧
    jGet (build_rollup_stub "hello there".toList defaultEnvironment)
      "incidents".toList = some (Json.arr []) := by
  refine ⟨?_, ?_, ?_⟩
  · exact (c4_stub_keywords "the checkout failed after a config change".toList
      defaultEnvironment).1 (by decide)
  · exact ((c4_stub_keywords "the checkout failed after a config change".toList
      defaultEnvironment).2.1 (by decide)).2
  · exact (c4_stub_keywords "hello there".toList
      defaultEnvironment).2.2 (by decide) (by decide)

/-- Claim C10: the summary, sentiment and action_items fields of the stub
metadata are fixed constants, identical for any two input texts; the
summary is always the checkout-API-timeouts sentence even when the text
mentions neither keyword. -/
theorem c10_stub_constant_fields (t1 t2 : List Char) (env : Environment) :
    jGet (build_metadata_stub t1 env) "summary".toList =
      some (Json.str metadataSummary) ∧
    jGet (build_metadata_stub t1 env) "sentiment".toList =
      some (Json.str "neutral".toList) ∧
    jGet (build_metadata_stub t1 env) "action_items".toList =
      some (Json.arr metadataActionItems) ∧
    jGet (build_metadata_stub t1 env) "summary".toList =
      jGet (build_metadata_stub t2 env) "summary".toList ∧
    jGet (build_metadata_stub t1 env) "sentiment".toList =
      jGet (build_metadata_stub t2 env) "sentiment".toList ∧
    jGet (build_metadata_stub t1 env) "action_items".toList =
      jGet (build_metadata_stub t2 env) "action_items".toList :=
  ⟨rfl, rfl, rfl, rfl, rfl, rfl⟩

/-! ## Lexicographic comparison of violation paths -/

theorem listCmp_refl {α : Type} {cmp : α → α → Ordering}
    (hA : ∀ a, cmp a a = .eq) : ∀ l : List α, listCmp cmp l l = .eq := by
  intro l
  induction l with
  | nil => rfl
  | cons a as ih =>
    rw [listCmp, hA a, ih]

theorem listCmp_eq {α : Type} {cmp : α → α → Ordering}
    (hB : ∀ a b, cmp a b = .eq → a = b) :
    ∀ {l1 l2 : List α}, listCmp cmp l1 l2 = .eq → l1 = l2 := by
  intro l1
  induction l1 with
  | nil =>
    intro l2 h
    cases l2 with
    | nil => rfl
    | cons b bs => rw [listCmp] at h; cases h
  | cons a as ih =>
    intro l2 h
    cases l2 with
    | nil => rw [listCmp] at h; cases h
    | cons b bs =>
      rw [listCmp] at h
      cases hab : cmp a b with
      | eq => rw [hab] at h; rw [hB a b hab, ih h]
      | lt => rw [hab] at h; cases h
      | gt => rw [hab] at h; cases h

theorem listCmp_swap {α : Type} {cmp : α → α → Ordering}
    (hA : ∀ a, cmp a a = .eq) (hB : ∀ a b, cmp a b = .eq → a = b)
    (hC : ∀ a b, cmp a b = .lt ↔ cmp b a = .gt) :
    ∀ l1 l2 : List α, listCmp cmp l1 l2 = .lt ↔ listCmp cmp l2 l1 = .gt := by
  intro l1
  induction l1 with
  | nil =>
    intro l2
    cases l2 with
    | nil => constructor <;> (intro h; cases h)
    | cons b bs => constructor <;> (intro _; rfl)
  | cons a as ih =>
    intro l2
    cases l2 with
    | nil => constructor <;> (intro h; cases h)
    | cons b bs =>
      rw [listCmp, listCmp]
      cases hab : cmp a b with
      | eq =>
        have hba : cmp b a = .eq := by rw [hB a b hab, hA]
        rw [hba]
        exact ih bs
      | lt =>
        have hba : cmp b a = .gt := (hC a b).mp hab
        rw [hba]
        constructor <;> (intro _; rfl)
      | gt =>
        have hba : cmp b a = .lt := (hC b a).mpr hab
        rw [hba]
        constructor <;> (intro h; cases h)

theorem listCmp_lt_trans {α : Type} {cmp : α → α → Ordering}
    (hB : ∀ a b, cmp a b = .eq → a = b)
    (hD : ∀ a b c, cmp a b = .lt → cmp b c = .lt → cmp a c = .lt) :
    ∀ l1 l2 l3 : List α, listCmp cmp l1 l2 = .lt → listCmp cmp l2 l3 = .lt →
      listCmp cmp l1 l3 = .lt := by
  intro l1
  induction l1 with
  | nil =>
    intro l2 l3 h12 h23
    cases l2 with
    | nil => cases h12
    | cons b bs =>
      cases l3 with
      | nil => rw [listCmp] at h23; cases h23
      | cons c cs => rfl
  | cons a as ih =>
    intro l2 l3 h12 h23
    cases l2 with
    | nil => rw [listCmp] at h12; cases h12
    | cons b bs =>
      cases l3 with
      | nil => rw [listCmp] at h23; cases h23
      | cons c cs =>
        rw [listCmp] at h12 h23 ⊢
        cases hab : cmp a b with
        | gt => rw [hab] at h12; cases h12
        | eq =>
          rw [hab] at h12
          have : a = b := hB a b hab
          subst this
          cases hac : cmp a c with
          | eq =>
            rw [hac] at h23
            exact ih bs cs h12 h23
          | lt => rfl
          | gt => rw [hac] at h23; cases h23
        | lt =>
          cases hbc : cmp b c with
          | eq =>
            have : b = c := hB b c hbc
            subst this
            rw [hab]
          | lt => rw [hD a b c hab hbc]
          | gt => rw [hbc] at h23; cases h23

theorem charCmp_refl (a : Char) : charCmp a a = .eq :=
  Nat.compare_eq_eq.mpr rfl

theorem charCmp_eq {a b : Char} (h : charCmp a b = .eq) : a = b :=
  Char.ext (UInt32.ext (Nat.compare_eq_eq.mp h))

theorem charCmp_swap (a b : Char) : charCmp a b = .lt ↔ charCmp b a = .gt := by
  rw [charCmp, charCmp, Nat.compare_eq_lt, Nat.compare_eq_gt]

theorem charCmp_lt_trans {a b c : Char} (h1 : charCmp a b = .lt)
    (h2 : charCmp b c = .lt) : charCmp a c = .lt := by
  rw [charCmp, Nat.compare_eq_lt] at h1 h2 ⊢
  omega

theorem peCmp_refl (a : PathElem) : peCmp a a = .eq := by
  cases a with
  | inl n => exact Nat.compare_eq_eq.mpr rfl
  | inr s => exact listCmp_refl charCmp_refl s

theorem peCmp_eq {a b : PathElem} (h : peCmp a b = .eq) : a = b := by
  cases a with
  | inl n =>
    cases b with
    | inl m => rw [Nat.compare_eq_eq.mp h]
    | inr t => cases h
  | inr s =>
    cases b with
    | inl m => cases h
    | inr t => rw [listCmp_eq (fun x y => charCmp_eq) h]

theorem peCmp_swap (a b : PathElem) : peCmp a b = .lt ↔ peCmp b a = .gt := by
  cases a with
  | inl n =>
    cases b with
    | inl m =>
      show compare n m = .lt ↔ compare m n = .gt
      rw [Nat.compare_eq_lt, Nat.compare_eq_gt]
    | inr t => constructor <;> (intro _; rfl)
  | inr s =>
    cases b with
    | inl m => constructor <;> (intro h; cases h)
    | inr t =>
      exact listCmp_swap charCmp_refl (fun x y => charCmp_eq) charCmp_swap s t

theorem peCmp_lt_trans {a b c : PathElem} (h1 : peCmp a b = .lt)
    (h2 : peCmp b c = .lt) : peCmp a c = .lt := by
  cases a with
  | inl n =>
    cases b with
    | inl m =>
      cases c with
      | inl p =>
        show compare n p = .lt
        have h1' : compare n m = .lt := h1
        have h2' : compare m p = .lt := h2
        rw [Nat.compare_eq_lt] at h1' h2' ⊢
        omega
      | inr t => rfl
    | inr t =>
      cases c with
      | inl p => cases h2
      | inr u => rfl
  | inr s =>
    cases b with
    | inl m => cases h1
    | inr t =>
      cases c with
      | inl p => cases h2
      | inr u =>
        exact listCmp_lt_trans (fun x y => charCmp_eq)
          (fun x y z hx hy => charCmp_lt_trans hx hy) s t u h1 h2

theorem pathCmp_refl (a : List PathElem) : pathCmp a a = .eq :=
  listCmp_refl peCmp_refl a

theorem pathCmp_eq {a b : List PathElem} (h : pathCmp a b = .eq) : a = b :=
  listCmp_eq (fun x y => peCmp_eq) h

theorem pathCmp_swap (a b : List PathElem) :
    pathCmp a b = .lt ↔ pathCmp b a = .gt :=
  listCmp_swap peCmp_refl (fun x y => peCmp_eq) peCmp_swap a b

theorem pathCmp_lt_trans {a b c : List PathElem} (h1 : pathCmp a b = .lt)
    (h2 : pathCmp b c = .lt) : pathCmp a c = .lt :=
  listCmp_lt_trans (fun x y => peCmp_eq)
    (fun x y z hx hy => peCmp_lt_trans hx hy) a b c h1 h2

theorem pathLe_total (a b : List PathElem) :
    pathCmp a b ≠ .gt ∨ pathCmp b a ≠ .gt := by
  cases h : pathCmp a b with
  | eq => exact Or.inl (by intro hc; cases hc)
  | lt => exact Or.inl (by intro hc; cases hc)
  | gt =>
    have hba : pathCmp b a = .lt := (pathCmp_swap b a).mpr h
    exact Or.inr (by intro hc; rw [hba] at hc; cases hc)

theorem pathLe_trans {a b c : List PathElem} (h1 : pathCmp a b ≠ .gt)
    (h2 : pathCmp b c ≠ .gt) : pathCmp a c ≠ .gt := by
  cases hab : pathCmp a b with
  | gt => exact absurd hab h1
  | eq =>
    rw [pathCmp_eq hab]
    exact h2
  | lt =>
    cases hbc : pathCmp b c with
    | gt => exact absurd hbc h2
    | eq =>
      rw [← pathCmp_eq hbc, hab]
      intro hc; cases hc
    | lt =>
      rw [pathCmp_lt_trans hab hbc]
      intro hc; cases hc

/-- Claim C5 (amended): on any nonempty violation list, validate_payload
cites exactly one violation, one whose path is lexicographically minimal
among all detected violations; when several violations share the minimal
path the stable sort keeps the validator's iteration order, so the cited
message does depend on that order. -/
theorem c5_first_violation_amended (errors : List Violation)
    (hne : errors ≠ []) :
    ∃ v, firstViolation errors = some v ∧ v ∈ errors ∧
      ∀ w ∈ errors, pathCmp v.path w.path ≠ .gt := by
  haveI : IsTotal Violation (fun v w : Violation => pathCmp v.path w.path ≠ .gt) :=
    ⟨fun a b => pathLe_total a.path b.path⟩
  haveI : IsTrans Violation (fun v w : Violation => pathCmp v.path w.path ≠ .gt) :=
    ⟨fun a b c => pathLe_trans⟩
  have hperm := List.perm_insertionSort
    (fun v w : Violation => pathCmp v.path w.path ≠ .gt) errors
  have hsorted := List.sorted_insertionSort
    (fun v w : Violation => pathCmp v.path w.path ≠ .gt) errors
  cases hs : sortViolations errors with
  | nil =>
    have : errors = [] := by
      have h := hperm
      rw [show List.insertionSort (fun v w : Violation =>
        pathCmp v.path w.path ≠ .gt) errors = sortViolations errors from rfl,
        hs] at h
      exact h.symm.eq_nil
    exact absurd this hne
  | cons v vs =>
    have hrw : List.insertionSort (fun v w : Violation =>
        pathCmp v.path w.path ≠ .gt) errors = v :: vs := hs
    refine ⟨v, ?_, ?_, ?_⟩
    · rw [firstViolation, hs]
      rfl
    · exact hperm.mem_iff.mp (by rw [hrw]; exact List.mem_cons_self _ _)
    · intro w hw
      have hw' : w ∈ v :: vs := by
        rw [← hrw]
        exact hperm.mem_iff.mpr hw
      rcases List.mem_cons.mp hw' with hw' | hw'
      · subst hw'
        rw [pathCmp_refl]
        intro hc; cases hc
      · rw [hrw] at hsorted
        exact List.rel_of_sorted_cons hsorted w hw'

/-- Claim C5, witness: the amended statement applied to a concrete
two-violation list with distinct paths. -/
theorem c5_first_violation_witness :
    ∃ v, firstViolation [⟨[Sum.inl 1], "idx"⟩, ⟨[], "root"⟩] = some v ∧
      v ∈ [⟨[Sum.inl 1], "idx"⟩, ⟨[], "root"⟩] ∧
      ∀ w ∈ [(⟨[Sum.inl 1], "idx"⟩ : Violation), ⟨[], "root"⟩],
        pathCmp v.path w.path ≠ .gt :=
  c5_first_violation_amended [⟨[Sum.inl 1], "idx"⟩, ⟨[], "root"⟩] (by decide)

/-- Claim C5, counterexample to the original statement: two violations
sharing the same (lexicographically smallest) path are cited in iteration
order, so the cited violation is not independent of the validator's
insertion order. -/
theorem c5_first_violation_counterexample :
    firstViolation [⟨[], "first inserted"⟩, ⟨[], "second inserted"⟩] =
      some ⟨[], "first inserted"⟩ ∧
    firstViolation [⟨[], "second inserted"⟩, ⟨[], "first inserted"⟩] =
      some ⟨[], "second inserted"⟩ ∧
    (⟨[], "first inserted"⟩ : Violation) ≠ ⟨[], "second inserted"⟩ := by
  refine ⟨rfl, rfl, by decide⟩

/-! ## Claim C8: configuration resolution and the timeout field -/

theorem updTB_timeout (raw : List (String × String)) (e : Environment) :
    (updTB raw e).localai_timeout = e.localai_timeout := by
  unfold updTB; cases envSet raw "TRANSCRIBE_BACKEND" <;> rfl

theorem updAB_timeout (raw : List (String × String)) (e : Environment) :
    (updAB raw e).localai_timeout = e.localai_timeout := by
  unfold updAB; cases envSet raw "ANALYZE_BACKEND" <;> rfl

theorem updOAK_timeout (raw : List (String × String)) (e : Environment) :
    (updOAK raw e).localai_timeout = e.localai_timeout := by
  unfold updOAK; cases envSet raw "OPENAI_API_KEY" <;> rfl

theorem updOSM_timeout (raw : List (String × String)) (e : Environment) :
    (updOSM raw e).localai_timeout = e.localai_timeout := by
  unfold updOSM; cases envSet raw "OPENAI_STT_MODEL" <;> rfl

theorem updLSM_timeout (raw : List (String × String)) (e : Environment) :
    (updLSM raw e).localai_timeout = e.localai_timeout := by
  unfold updLSM; cases envSet raw "LOCALAI_STT_MODEL" <;> rfl

theorem updLBU_timeout (raw : List (String × String)) (e : Environment) :
    (updLBU raw e).localai_timeout = e.localai_timeout := by
  unfold updLBU; cases envSet raw "LOCALAI_BASE_URL" <;> rfl

theorem updLM_timeout (raw : List (String × String)) (e : Environment) :
    (updLM raw e).localai_timeout = e.localai_timeout := by
  unfold updLM; cases envSet raw "LOCALAI_MODEL" <;> rfl

theorem updTZ_timeout (raw : List (String × String)) (e : Environment) :
    (updTZ raw e).localai_timeout = e.localai_timeout := by
  unfold updTZ; cases envSet raw "DEFAULT_TIMEZONE" <;> rfl

/-- Claim C8 (amended): load_environment is a pure function of the raw
environment — it takes no network oracle, so an invalid timeout is rejected
before any network call can be attempted — and fails with the DKError
whenever LOCALAI_TIMEOUT_S is set to a non-empty value that is not a Python
integer literal; every successfully constructed environment holds either
the default timeout of 45 (variable absent or empty) or exactly the parsed
integer, which need not be positive. -/
theorem c8_settings_timeout_amended (raw : List (String × String)) :
    (∀ v, envSet raw "LOCALAI_TIMEOUT_S" = some v → pyInt v.toList = none →
      load_environment raw =
        .error (.dk "LOCALAI_TIMEOUT_S must be an integer")) ∧
    (∀ env, load_environment raw = .ok env →
      (envSet raw "LOCALAI_TIMEOUT_S" = none ∧ env.localai_timeout = 45) ∨
      (∃ v, envSet raw "LOCALAI_TIMEOUT_S" = some v ∧
        pyInt v.toList = some env.localai_timeout)) := by
  constructor
  · intro v hv hp
    simp only [load_environment, hv, hp]
  · intro env h
    cases hset : envSet raw "LOCALAI_TIMEOUT_S" with
    | none =>
      simp only [load_environment, hset, Except.ok.injEq] at h
      subst h
      refine Or.inl ⟨rfl, ?_⟩
      rw [updTZ_timeout, updLM_timeout, updLBU_timeout, updLSM_timeout,
        updOSM_timeout, updOAK_timeout, updAB_timeout, updTB_timeout]
      rfl
    | some v =>
      simp only [load_environment, hset] at h
      cases hp : pyInt v.toList with
      | none =>
        rw [hp] at h
        exact Except.noConfusion h
      | some n =>
        rw [hp] at h
        refine Or.inr ⟨v, rfl, ?_⟩
        rw [hp]
        simp only [Except.ok.injEq] at h
        subst h
        rw [updTZ_timeout]

/-- Claim C8, witness: a non-integer timeout value is rejected with the
DKError. -/
theorem c8_settings_timeout_witness :
    envSet [("LOCALAI_TIMEOUT_S", "abc")] "LOCALAI_TIMEOUT_S" = some "abc" ∧
    pyInt "abc".toList = none ∧
    load_environment [("LOCALAI_TIMEOUT_S", "abc")] =
      .error (.dk "LOCALAI_TIMEOUT_S must be an integer") :=
  ⟨rfl, rfl,
    (c8_settings_timeout_amended [("LOCALAI_TIMEOUT_S", "abc")]).1 "abc" rfl rfl⟩

/-- Claim C8, counterexample to the original statement: the value -5 is
accepted, so a successfully constructed environment need not hold a
positive timeout; and the present-but-empty value, although not an integer,
is silently ignored instead of raising the ConfigError. -/
theorem c8_settings_timeout_counterexample :
    load_environment [("LOCALAI_TIMEOUT_S", "-5")] =
      .ok { defaultEnvironment with localai_timeout := -5 } ∧
    ¬ (0 < ({ defaultEnvironment with
        localai_timeout := -5 } : Environment).localai_timeout) ∧
    load_environment [("LOCALAI_TIMEOUT_S", "")] = .ok defaultEnvironment :=
  ⟨rfl, by decide, rfl⟩

/-! ## Claim C9: shape of successful transcription payloads -/

theorem eBind_ok {α β : Type} (a : α) (f : α → Except Failure β) :
    (Except.ok a >>= f) = f a := rfl

theorem eBind_error {α β : Type} (e : Failure) (f : α → Except Failure β) :
    ((Except.error e : Except Failure α) >>= f) = Except.error e := rfl

theorem ePure_ok {α : Type} (a : α) :
    (pure a : Except Failure α) = Except.ok a := rfl

theorem transcribe_openai_shape {resp : Json} {env : Environment}
    {p : List (List Char × Json)} (h : transcribe_openai resp env = .ok p) :
    ∃ a b c, p =
      [("text".toList, a), ("language".toList, b),
       ("confidence".toList, Json.null), ("duration_s".toList, Json.null),
       ("segments".toList, c)] := by
  rw [transcribe_openai] at h
  cases hk : env.openai_api_key with
  | none => rw [hk] at h; exact Except.noConfusion h
  | some key =>
    rw [hk] at h
    simp only [Except.ok.injEq] at h
    exact ⟨_, _, _, h.symm⟩

theorem transcribe_localai_shape {lnet : Option (Nat × Option Json)}
    {env : Environment} {p : List (List Char × Json)}
    (h : transcribe_localai lnet env = .ok p) :
    ∃ a b c, p =
      [("text".toList, a), ("language".toList, b),
       ("confidence".toList, Json.null), ("duration_s".toList, Json.null),
       ("segments".toList, c)] := by
  cases lnet with
  | none => exact Except.noConfusion h
  | some sb =>
    obtain ⟨status, body⟩ := sb
    simp only [transcribe_localai] at h
    by_cases hs : status ≥ 400
    · rw [if_pos hs] at h
      exact Except.noConfusion h
    · rw [if_neg hs] at h
      cases body with
      | none => exact Except.noConfusion h
      | some payload =>
        cases payload with
        | obj fs =>
          simp only [Except.ok.injEq] at h
          exact ⟨_, _, _, h.symm⟩
        | null => exact Except.noConfusion h
        | bool b => exact Except.noConfusion h
        | num n => exact Except.noConfusion h
        | str s => exact Except.noConfusion h
        | arr l => exact Except.noConfusion h

theorem post_shape {a b c : Json} {r : List (List Char × Json)}
    (h : (validate_transcription_payload
        [("text".toList, a), ("language".toList, b),
         ("confidence".toList, Json.null), ("duration_s".toList, Json.null),
         ("segments".toList, c)] >>= fun _ =>
        pure [("text".toList, a), ("language".toList, b),
         ("confidence".toList, Json.null), ("duration_s".toList, Json.null),
         ("segments".toList, c)]) = Except.ok r) :
    (∃ t, r.lookup "text".toList = some t) ∧
    (∃ l, r.lookup "language".toList = some l) ∧
    r.lookup "confidence".toList = some Json.null ∧
    r.lookup "duration_s".toList = some Json.null ∧
    (∃ seg, r.lookup "segments".toList = some (Json.arr seg)) := by
  cases hval : validate_transcription_payload
      [("text".toList, a), ("language".toList, b),
       ("confidence".toList, Json.null), ("duration_s".toList, Json.null),
       ("segments".toList, c)] with
  | error e => rw [hval, eBind_error] at h; exact Except.noConfusion h
  | ok u =>
    rw [hval, eBind_ok] at h
    rw [ePure_ok] at h
    injection h with hr
    subst hr
    refine ⟨⟨a, rfl⟩, ⟨b, rfl⟩, rfl, rfl, ?_⟩
    cases c with
    | arr l => exact ⟨l, rfl⟩
    | null => exact Except.noConfusion hval
    | bool x => exact Except.noConfusion hval
    | num x => exact Except.noConfusion hval
    | str s => exact Except.noConfusion hval
    | obj fs2 => exact Except.noConfusion hval

/-- Claim C9: every payload returned successfully by perform_transcription,
from either backend, carries all five keys text, language, confidence,
duration_s and segments, with confidence and duration_s null and segments a
JSON array (defaulted to empty when the backend omits it). -/
theorem c9_transcription_shape (fs : List (String × String)) (path : String)
    (env : Environment) (onet : Option Json) (lnet : Option (Nat × Option Json))
    (r : List (List Char × Json))
    (h : perform_transcription fs path env onet lnet = .ok r) :
    (∃ t, r.lookup "text".toList = some t) ∧
    (∃ l, r.lookup "language".toList = some l) ∧
    r.lookup "confidence".toList = some Json.null ∧
    r.lookup "duration_s".toList = some Json.null ∧
    (∃ seg, r.lookup "segments".toList = some (Json.arr seg)) := by
  rw [perform_transcription] at h
  cases hfe : ensure_file_exists fs path with
  | error e => rw [hfe, eBind_error] at h; exact Except.noConfusion h
  | ok u =>
    rw [hfe, eBind_ok] at h
    by_cases hb1 : env.transcribe_backend = "openai".toList
    · rw [if_pos hb1] at h
      cases onet with
      | none =>
        simp only [eBind_error] at h
        exact Except.noConfusion h
      | some resp =>
        simp only [] at h
        cases hto : transcribe_openai resp env with
        | error e => rw [hto, eBind_error] at h; exact Except.noConfusion h
        | ok result =>
          rw [hto, eBind_ok] at h
          obtain ⟨a, b, c, hpshape⟩ := transcribe_openai_shape hto
          subst hpshape
          exact post_shape h
    · by_cases hb2 : env.transcribe_backend = "localai".toList
      · rw [if_neg hb1, if_pos hb2] at h
        cases htl : transcribe_localai lnet env with
        | error e => rw [htl, eBind_error] at h; exact Except.noConfusion h
        | ok result =>
          rw [htl, eBind_ok] at h
          obtain ⟨a, b, c, hpshape⟩ := transcribe_localai_shape htl
          subst hpshape
          exact post_shape h
      · rw [if_neg hb1, if_neg hb2, eBind_error] at h
        exact Except.noConfusion h

/-- Claim C9, witness: an OpenAI response that omits text, language and
segments still yields the five-key payload with null confidence and
duration and an empty segments array. -/
theorem c9_transcription_shape_witness :
    (∃ t, ([(("text".toList : List Char), Json.str []),
        ("language".toList, Json.str []), ("confidence".toList, Json.null),
        ("duration_s".toList, Json.null), ("segments".toList, Json.arr [])]
        |>.lookup "text".toList) = some t) ∧
    (∃ l, ([(("text".toList : List Char), Json.str []),
        ("language".toList, Json.str []), ("confidence".toList, Json.null),
        ("duration_s".toList, Json.null), ("segments".toList, Json.arr [])]
        |>.lookup "language".toList) = some l) ∧
    ([(("text".toList : List Char), Json.str []),
        ("language".toList, Json.str []), ("confidence".toList, Json.null),
        ("duration_s".toList, Json.null), ("segments".toList, Json.arr [])]
        |>.lookup "confidence".toList) = some Json.null ∧
    ([(("text".toList : List Char), Json.str []),
        ("language".toList, Json.str []), ("confidence".toList, Json.null),
        ("duration_s".toList, Json.null), ("segments".toList, Json.arr [])]
        |>.lookup "duration_s".toList) = some Json.null ∧
    (∃ seg, ([(("text".toList : List Char), Json.str []),
        ("language".toList, Json.str []), ("confidence".toList, Json.null),
        ("duration_s".toList, Json.null), ("segments".toList, Json.arr [])]
        |>.lookup "segments".toList) = some (Json.arr seg)) :=
  c9_transcription_shape [("a.wav", "x")] "a.wav"
    { defaultEnvironment with openai_api_key := some "k".toList }
    (some (Json.obj [])) none
    [("text".toList, Json.str []), ("language".toList, Json.str []),
     ("confidence".toList, Json.null), ("duration_s".toList, Json.null),
     ("segments".toList, Json.arr [])] rfl

/-! ## Claim C6: the CLI error envelope -/

/-- Claim C6 (amended): for every DKError failure inside a command, the
command writes the single JSON envelope to stderr with the code of the
outer operation (analysis_error, transcribe_error, pipeline_error — never
the inner component) and exits 1 with no stdout payload; and stdout only
ever carries the success payload of an invocation that exited 0 with empty
stderr. Failures of other exception types are not caught and do not
produce the envelope. -/
theorem c6_error_envelope_amended (raw : List (String × String))
    (fs : List (String × String)) (inputPath : String) (mode : String)
    (out : Option String) (net : Option (Nat × Option Json)) (onet : Option Json)
    (lnet anet1 anet2 : Option (Nat × Option Json)) :
    (∀ m, analyzeInner raw fs inputPath mode net = .error (.dk m) →
      analyzeCmd raw fs inputPath mode net =
        ⟨1, none, none, .envelope m "analysis_error"⟩) ∧
    (∀ m, transcribeInner raw fs inputPath onet lnet = .error (.dk m) →
      transcribeCmd raw fs inputPath out onet lnet =
        ⟨1, none, none, .envelope m "transcribe_error"⟩) ∧
    (∀ m, pipelineInner raw fs inputPath onet lnet anet1 anet2 = .error (.dk m) →
      pipelineCmd raw fs inputPath onet lnet anet1 anet2 =
        ⟨1, none, none, .envelope m "pipeline_error"⟩) ∧
    (∀ j, (analyzeCmd raw fs inputPath mode net).stdout = some j →
      (analyzeCmd raw fs inputPath mode net).exitCode = 0 ∧
      (analyzeCmd raw fs inputPath mode net).stderr = .empty ∧
      analyzeInner raw fs inputPath mode net = .ok j) ∧
    (∀ j, (transcribeCmd raw fs inputPath out onet lnet).stdout = some j →
      (transcribeCmd raw fs inputPath out onet lnet).exitCode = 0 ∧
      (transcribeCmd raw fs inputPath out onet lnet).stderr = .empty ∧
      out = none ∧ ∃ p, transcribeInner raw fs inputPath onet lnet = .ok p ∧
        j = Json.obj p) ∧
    (∀ j, (pipelineCmd raw fs inputPath onet lnet anet1 anet2).stdout = some j →
      (pipelineCmd raw fs inputPath onet lnet anet1 anet2).exitCode = 0 ∧
      (pipelineCmd raw fs inputPath onet lnet anet1 anet2).stderr = .empty ∧
      pipelineInner raw fs inputPath onet lnet anet1 anet2 = .ok j) := by
  refine ⟨?_, ?_, ?_, ?_, ?_, ?_⟩
  · intro m hm
    rw [analyzeCmd, hm]
  · intro m hm
    rw [transcribeCmd, hm]
  · intro m hm
    rw [pipelineCmd, hm]
  · intro j hj
    cases hin : analyzeInner raw fs inputPath mode net with
    | ok r =>
      rw [analyzeCmd, hin] at hj
      have hj2 : some r = some j := hj
      injection hj2 with hj3
      subst hj3
      rw [analyzeCmd, hin]
      exact ⟨rfl, rfl, rfl⟩
    | error f =>
      cases f with
      | dk m => rw [analyzeCmd, hin] at hj; exact Option.noConfusion hj
      | pyExc d => rw [analyzeCmd, hin] at hj; exact Option.noConfusion hj
  · intro j hj
    cases hin : transcribeInner raw fs inputPath onet lnet with
    | ok r =>
      cases out with
      | some o =>
        rw [transcribeCmd, hin] at hj
        exact Option.noConfusion hj
      | none =>
        rw [transcribeCmd, hin] at hj
        have hj2 : some (Json.obj r) = some j := hj
        injection hj2 with hj3
        subst hj3
        rw [transcribeCmd, hin]
        exact ⟨rfl, rfl, rfl, r, rfl, rfl⟩
    | error f =>
      cases f with
      | dk m => rw [transcribeCmd, hin] at hj; exact Option.noConfusion hj
      | pyExc d => rw [transcribeCmd, hin] at hj; exact Option.noConfusion hj
  · intro j hj
    cases hin : pipelineInner raw fs inputPath onet lnet anet1 anet2 with
    | ok r =>
      rw [pipelineCmd, hin] at hj
      have hj2 : some r = some j := hj
      injection hj2 with hj3
      subst hj3
      rw [pipelineCmd, hin]
      exact ⟨rfl, rfl, rfl⟩
    | error f =>
      cases f with
      | dk m => rw [pipelineCmd, hin] at hj; exact Option.noConfusion hj
      | pyExc d => rw [pipelineCmd, hin] at hj; exact Option.noConfusion hj

/-- Claim C6, witness: the analyze command on a missing input file emits
the analysis_error envelope (not a file_error) and exits 1 with no
stdout. -/
theorem c6_error_envelope_witness :
    analyzeInner [] [] "missing.txt" "metadata" none =
      .error (.dk "Input file not found: missing.txt") ∧
    analyzeCmd [] [] "missing.txt" "metadata" none =
      ⟨1, none, none,
        .envelope "Input file not found: missing.txt" "analysis_error"⟩ :=
  ⟨rfl, (c6_error_envelope_amended [] [] "missing.txt" "metadata" none none
    none none none none).1 "Input file not found: missing.txt" rfl⟩

/-- Claim C6, counterexample to the original statement: a requests-level
failure of the LocalAI backend call is an internal failure of a backend
call, yet the command leaves a Python traceback on stderr, not a JSON
error envelope. -/
theorem c6_error_envelope_counterexample :
    analyzeCmd [] [("t.txt", "hi")] "t.txt" "metadata" none =
      ⟨1, none, none,
        .traceback "requests exception (timeout or connection error)"⟩ ∧
    isEnvelope (analyzeCmd [] [("t.txt", "hi")] "t.txt" "metadata" none).stderr
      = false :=
  ⟨rfl, rfl⟩

/-! ## Claim C7: pipeline composition and abort policy -/

/-- Claim C7: a successful pipeline run is exactly the composition
transcribe, then analyze(metadata), then analyze(rollup) over the
transcribed text, with the three results nested under the fixed keys
transcription, metadata and rollup; a failure of any stage propagates as
the pipeline result for every value of the later-stage oracles (no retry,
no partial output), and a failed pipeline invocation writes nothing to
stdout or the output file. -/
theorem c7_pipeline_composition (raw : List (String × String))
    (fs : List (String × String)) (inputPath : String) (onet : Option Json)
    (lnet anet1 anet2 : Option (Nat × Option Json)) :
    (∀ r, pipelineInner raw fs inputPath onet lnet anet1 anet2 = .ok r →
      ∃ env t s m u,
        load_environment raw = .ok env ∧
        perform_transcription fs inputPath env onet lnet = .ok t ∧
        (t.lookup "text".toList).getD (Json.str []) = Json.str s ∧
        perform_analysis s "metadata" env anet1 = .ok m ∧
        perform_analysis s "rollup" env anet2 = .ok u ∧
        r = Json.obj [("transcription".toList, Json.obj t),
                      ("metadata".toList, m), ("rollup".toList, u)]) ∧
    (∀ e, load_environment raw = .error e →
      pipelineInner raw fs inputPath onet lnet anet1 anet2 = .error e) ∧
    (∀ env e, load_environment raw = .ok env →
      perform_transcription fs inputPath env onet lnet = .error e →
      pipelineInner raw fs inputPath onet lnet anet1 anet2 = .error e) ∧
    (∀ env t s e, load_environment raw = .ok env →
      perform_transcription fs inputPath env onet lnet = .ok t →
      (t.lookup "text".toList).getD (Json.str []) = Json.str s →
      perform_analysis s "metadata" env anet1 = .error e →
      pipelineInner raw fs inputPath onet lnet anet1 anet2 = .error e) ∧
    (∀ env t s m e, load_environment raw = .ok env →
      perform_transcription fs inputPath env onet lnet = .ok t →
      (t.lookup "text".toList).getD (Json.str []) = Json.str s →
      perform_analysis s "metadata" env anet1 = .ok m →
      perform_analysis s "rollup" env anet2 = .error e →
      pipelineInner raw fs inputPath onet lnet anet1 anet2 = .error e) ∧
    (∀ e, pipelineInner raw fs inputPath onet lnet anet1 anet2 = .error e →
      (pipelineCmd raw fs inputPath onet lnet anet1 anet2).stdout = none ∧
      (pipelineCmd raw fs inputPath onet lnet anet1 anet2).fileOut = none ∧
      (pipelineCmd raw fs inputPath onet lnet anet1 anet2).exitCode = 1) := by
  refine ⟨?_, ?_, ?_, ?_, ?_, ?_⟩
  · intro r hr
    rw [pipelineInner] at hr
    cases hle : load_environment raw with
    | error e => rw [hle, eBind_error] at hr; exact Except.noConfusion hr
    | ok env =>
      rw [hle, eBind_ok] at hr
      cases hpt : perform_transcription fs inputPath env onet lnet with
      | error e => rw [hpt, eBind_error] at hr; exact Except.noConfusion hr
      | ok t =>
        rw [hpt, eBind_ok] at hr
        cases hg : (t.lookup "text".toList).getD (Json.str []) with
        | str s =>
          rw [hg] at hr
          simp only [] at hr
          cases hm : perform_analysis s "metadata" env anet1 with
          | error e => rw [hm, eBind_error] at hr; exact Except.noConfusion hr
          | ok m =>
            rw [hm, eBind_ok] at hr
            simp only [ePure_ok] at hr
            cases hu : perform_analysis s "rollup" env anet2 with
            | error e => rw [hu, eBind_error] at hr; exact Except.noConfusion hr
            | ok u =>
              rw [hu, eBind_ok] at hr
              have hr2 : Except.ok (Json.obj
                  [("transcription".toList, Json.obj t),
                   ("metadata".toList, m), ("rollup".toList, u)]) =
                  Except.ok r := hr
              injection hr2 with hr3
              exact ⟨env, t, s, m, u, rfl, hpt, hg, hm, hu, hr3.symm⟩
        | null => rw [hg] at hr; exact Except.noConfusion hr
        | bool b => rw [hg] at hr; exact Except.noConfusion hr
        | num n => rw [hg] at hr; exact Except.noConfusion hr
        | arr l => rw [hg] at hr; exact Except.noConfusion hr
        | obj ofs => rw [hg] at hr; exact Except.noConfusion hr
  · intro e he
    rw [pipelineInner, he, eBind_error]
  · intro env e hle hpt
    rw [pipelineInner, hle, eBind_ok]
    rw [hpt, eBind_error]
  · intro env t s e hle hpt hg hm
    rw [pipelineInner, hle, eBind_ok]
    rw [hpt, eBind_ok]
    rw [hg]
    simp only []
    rw [hm, eBind_error]
  · intro env t s m e hle hpt hg hm hu
    rw [pipelineInner, hle, eBind_ok]
    rw [hpt, eBind_ok]
    rw [hg]
    simp only []
    rw [hm, eBind_ok]
    rw [hu, eBind_error]
  · intro e he
    cases e with
    | dk m =>
      rw [pipelineCmd, he]
      exact ⟨rfl, rfl, rfl⟩
    | pyExc d =>
      rw [pipelineCmd, he]
      exact ⟨rfl, rfl, rfl⟩

/-- Claim C7, witness: with a successful LocalAI transcription and a failing
metadata analysis call, the pipeline aborts with that failure for an
arbitrary value of the rollup-stage oracle, and the command leaves stdout
and the output file empty. -/
theorem c7_pipeline_composition_witness :
    pipelineInner [("TRANSCRIBE_BACKEND", "localai")] [("a.wav", "x")] "a.wav"
      none (some (200, some (Json.obj [("text".toList, Json.str "hi".toList)])))
      none (some (200, some Json.null)) =
      .error (.pyExc "requests exception (timeout or connection error)") ∧
    (pipelineCmd [("TRANSCRIBE_BACKEND", "localai")] [("a.wav", "x")] "a.wav"
      none (some (200, some (Json.obj [("text".toList, Json.str "hi".toList)])))
      none (some (200, some Json.null))).stdout = none ∧
    (pipelineCmd [("TRANSCRIBE_BACKEND", "localai")] [("a.wav", "x")] "a.wav"
      none (some (200, some (Json.obj [("text".toList, Json.str "hi".toList)])))
      none (some (200, some Json.null))).fileOut = none ∧
    (pipelineCmd [("TRANSCRIBE_BACKEND", "localai")] [("a.wav", "x")] "a.wav"
      none (some (200, some (Json.obj [("text".toList, Json.str "hi".toList)])))
      none (some (200, some Json.null))).exitCode = 1 := by
  refine ⟨?_, ?_⟩
  · exact (c7_pipeline_composition [("TRANSCRIBE_BACKEND", "localai")]
      [("a.wav", "x")] "a.wav" none
      (some (200, some (Json.obj [("text".toList, Json.str "hi".toList)])))
      none (some (200, some Json.null))).2.2.2.1
      { defaultEnvironment with transcribe_backend := "localai".toList }
      [("text".toList, Json.str "hi".toList), ("language".toList, Json.str []),
       ("confidence".toList, Json.null), ("duration_s".toList, Json.null),
       ("segments".toList, Json.arr [])]
      "hi".toList (.pyExc "requests exception (timeout or connection error)")
      rfl rfl rfl rfl
  · exact (c7_pipeline_composition [("TRANSCRIBE_BACKEND", "localai")]
      [("a.wav", "x")] "a.wav" none
      (some (200, some (Json.obj [("text".toList, Json.str "hi".toList)])))
      none (some (200, some Json.null))).2.2.2.2.2
      (.pyExc "requests exception (timeout or connection error)") rfl

end DK
